import Mathlib

/-!
Verification development for the Sunseeker CAN decoder (`app/can_analyzer.py`).

The Python module is shallowly embedded below:
* machine integers become `Nat`/`Int` with explicit masking (`% 256`, `&&& 0xFFFF`)
  exactly where the source masks;
* the two IEEE-754 binary32 values read by `floats_le` are represented by their raw
  32-bit patterns, with an exact rational valuation `f32ToRat` for finite patterns
  and a finiteness test `f32IsFinite` (Python only inspects the numeric value of a
  float where we do; `int(round(x))`, the only float operation that can raise, is
  embedded as `pyIntRound` on the bit pattern);
* fallible code returns `Option`/`Except`; the streaming engine is a pure state
  machine over explicit writer states, with the produced files and the progress
  callback trace reified as data.

Decoders and the engine keep the source's names and structure.  Python `round(x, n)`
calls on the scaled rational field values are identity on the exact rationals the
decoders produce (the scale factors are powers of ten), so they are not re-modelled.
-/

/-! ### String helpers (structural embeddings of the `str` methods used) -/

/-- Python `str.strip()`: drop whitespace from both ends. -/
def pyStrip (s : String) : String :=
  String.mk (((s.data.dropWhile Char.isWhitespace).reverse.dropWhile Char.isWhitespace).reverse)

/-- Python `str.lower()` (ASCII case folding, which is all the engine's data needs). -/
def pyLower (s : String) : String :=
  String.mk (s.data.map Char.toLower)

/-- Python `s.replace(" ", "")`: remove every space character. -/
def removeSpaces (s : String) : String :=
  String.mk (s.data.filter (fun c => c ≠ ' '))

/-- Python `s[:n]`. -/
def pyTake (s : String) (n : Nat) : String :=
  String.mk (s.data.take n)

/-- Python `s.ljust(n, "0")`: right-pad with `'0'` up to length `n`. -/
def ljustZero (s : String) (n : Nat) : String :=
  String.mk (s.data ++ List.replicate (n - s.data.length) '0')

/-- Hex digit value of a character, as accepted by `int(_, 16)` / `bytes.fromhex`. -/
def hexVal (c : Char) : Option Nat :=
  if '0' ≤ c ∧ c ≤ '9' then some (c.toNat - 48)
  else if 'a' ≤ c ∧ c ≤ 'f' then some (c.toNat - 87)
  else if 'A' ≤ c ∧ c ≤ 'F' then some (c.toNat - 55)
  else none

/-- Accumulating hex-string evaluator: `none` until a first digit is seen, `none` on
any non-hex character. -/
def hexAcc : List Char → Option Nat → Option Nat
  | [], acc => acc
  | c :: cs, acc =>
    match hexVal c with
    | some v => hexAcc cs (some ((acc.getD 0) * 16 + v))
    | none => none

/-- Embedding of `parse_can_id` (`int(s, 16)` after `strip()`, with an optional
`0x`/`0X` prefix and an optional sign; digit-group underscores are not modelled). -/
def parse_can_id (s : String) : Option Int :=
  let cs := (pyStrip s).data
  let signed : Int × List Char :=
    match cs with
    | '+' :: t => (1, t)
    | '-' :: t => (-1, t)
    | t => (1, t)
  let body : List Char :=
    match signed.2 with
    | '0' :: x :: t => if x = 'x' ∨ x = 'X' then t else signed.2
    | t => t
  (hexAcc body none).map (fun n => signed.1 * n)

/-- Lowercase hex digit for `hex()` / `bytes.hex()` rendering. -/
def hexDigitL (n : Nat) : Char :=
  if n < 10 then Char.ofNat (48 + n) else Char.ofNat (87 + n)

/-- Uppercase hex digit for `f"{_:02X}"` rendering. -/
def hexDigitU (n : Nat) : Char :=
  if n < 10 then Char.ofNat (48 + n) else Char.ofNat (55 + n)

/-- Fueled digit expansion (the fuel `n` itself always suffices). -/
def natHexAuxL : Nat → Nat → List Char → List Char
  | 0, _, acc => acc
  | fuel + 1, n, acc => if n = 0 then acc else natHexAuxL fuel (n / 16) (hexDigitL (n % 16) :: acc)

def natHexAuxU : Nat → Nat → List Char → List Char
  | 0, _, acc => acc
  | fuel + 1, n, acc => if n = 0 then acc else natHexAuxU fuel (n / 16) (hexDigitU (n % 16) :: acc)

/-- Lowercase hex digits of a natural number, no prefix ("0" for zero). -/
def natHex (n : Nat) : String :=
  if n = 0 then "0" else String.mk (natHexAuxL n n [])

/-- Python `hex(i)`: `0x…` lowercase, `-0x…` for negatives. -/
def pyHex (i : Int) : String :=
  if i < 0 then "-0x" ++ natHex i.natAbs else "0x" ++ natHex i.toNat

/-- Python `f"{i:02X}"`: uppercase hex, zero-padded to width 2 (sign counts toward
the width, as in CPython). -/
def fmt02X (i : Int) : String :=
  if i < 0 then "-" ++ String.mk (natHexAuxU i.natAbs i.natAbs [])
  else
    let ds := if i.toNat = 0 then ['0'] else natHexAuxU i.toNat i.toNat []
    String.mk (if ds.length < 2 then List.replicate (2 - ds.length) '0' ++ ds else ds)

/-- `f"{b:02X}"` for a byte value (used by `expand_bits_bytes`). -/
def byteHexU (b : Nat) : String :=
  String.mk [hexDigitU (b / 16 % 16), hexDigitU (b % 16)]

/-- One byte of `bytes.hex()` output (lowercase). -/
def byteHexL (b : Nat) : String :=
  String.mk [hexDigitL (b / 16 % 16), hexDigitL (b % 16)]

/-! ### Payload bytes -/

/-- An exactly-8-byte CAN payload, as handed to every decoder (the engine pads or
truncates the hex text to 16 characters before `bytes.fromhex`, so decoders always
see 8 bytes; each field is the byte's value, `< 256` whenever produced by parsing). -/
structure Bytes8 where
  b0 : Nat
  b1 : Nat
  b2 : Nat
  b3 : Nat
  b4 : Nat
  b5 : Nat
  b6 : Nat
  b7 : Nat
deriving DecidableEq

/-- All byte fields in range (true of every payload produced by `bytes.fromhex`). -/
def Bytes8.inRange (d : Bytes8) : Prop :=
  d.b0 < 256 ∧ d.b1 < 256 ∧ d.b2 < 256 ∧ d.b3 < 256 ∧
  d.b4 < 256 ∧ d.b5 < 256 ∧ d.b6 < 256 ∧ d.b7 < 256

instance (d : Bytes8) : Decidable d.inRange := by unfold Bytes8.inRange; infer_instance

/-- Byte `i` of the payload (indexing helper for statements about the payload). -/
def Bytes8.get (d : Bytes8) (i : Fin 8) : Nat :=
  if i.val = 0 then d.b0 else if i.val = 1 then d.b1 else if i.val = 2 then d.b2
  else if i.val = 3 then d.b3 else if i.val = 4 then d.b4 else if i.val = 5 then d.b5
  else if i.val = 6 then d.b6 else d.b7

/-- Replace byte `i` (0‥6, the checksum-input bytes) of the payload. -/
def Bytes8.setLow (d : Bytes8) (i : Fin 7) (v : Nat) : Bytes8 :=
  if i.val = 0 then { d with b0 := v } else if i.val = 1 then { d with b1 := v }
  else if i.val = 2 then { d with b2 := v } else if i.val = 3 then { d with b3 := v }
  else if i.val = 4 then { d with b4 := v } else if i.val = 5 then { d with b5 := v }
  else { d with b6 := v }

/-- `bytes.fromhex` on a 16-character string (the engine always supplies exactly 16
characters; any other length or a non-hex character raises, i.e. `none`). -/
def bytesFromHex (s : String) : Option Bytes8 :=
  match s.data with
  | [a0, a1, c0, c1, e0, e1, g0, g1, i0, i1, k0, k1, m0, m1, o0, o1] =>
    match hexVal a0, hexVal a1, hexVal c0, hexVal c1, hexVal e0, hexVal e1, hexVal g0,
      hexVal g1, hexVal i0, hexVal i1, hexVal k0, hexVal k1, hexVal m0, hexVal m1,
      hexVal o0, hexVal o1 with
    | some x0, some y0, some x1, some y1, some x2, some y2, some x3, some y3, some x4,
      some y4, some x5, some y5, some x6, some y6, some x7, some y7 =>
      some ⟨x0 * 16 + y0, x1 * 16 + y1, x2 * 16 + y2, x3 * 16 + y3,
            x4 * 16 + y4, x5 * 16 + y5, x6 * 16 + y6, x7 * 16 + y7⟩
    | _, _, _, _, _, _, _, _, _, _, _, _, _, _, _, _ => none
  | _ => none

/-- `bytes.hex()` of the 8 payload bytes (lowercase). -/
def bytesHex (d : Bytes8) : String :=
  byteHexL d.b0 ++ byteHexL d.b1 ++ byteHexL d.b2 ++ byteHexL d.b3 ++
  byteHexL d.b4 ++ byteHexL d.b5 ++ byteHexL d.b6 ++ byteHexL d.b7

/-! ### Field codecs (`u16_le`, `s16_le`, `u16_be`, `u32_le`, `s8`, checksum, floats) -/

def u16_le (b0 b1 : Nat) : Nat := (b0 ||| (b1 <<< 8)) &&& 0xFFFF

def s16_le (b0 b1 : Nat) : Int :=
  let v := u16_le b0 b1
  if v &&& 0x8000 ≠ 0 then (v : Int) - 0x10000 else (v : Int)

def u16_be (b0 b1 : Nat) : Nat := ((b0 <<< 8) ||| b1) &&& 0xFFFF

def u32_le (b0 b1 b2 b3 : Nat) : Nat :=
  (b0 ||| (b1 <<< 8) ||| (b2 <<< 16) ||| (b3 <<< 24)) &&& 0xFFFFFFFF

def s8 (v : Nat) : Int := if v ≥ 128 then (v : Int) - 256 else (v : Int)

/-- `compute_checksum`: `(broadcast_id + 8 + sum(data[:7])) & 0xFF`.  Python's
`& 0xFF` on an `int` (of either sign) is `mod 256` with a non-negative result,
which is exactly `Int.emod` by `256`. -/
def compute_checksum (broadcast_id : Int) (d : Bytes8) : Int :=
  (broadcast_id + 8 + ((d.b0 : Int) + d.b1 + d.b2 + d.b3 + d.b4 + d.b5 + d.b6)) % 256

/-- Finiteness of an IEEE-754 binary32 bit pattern (exponent field ≠ 0xFF). -/
def f32IsFinite (w : Nat) : Bool := w / 2 ^ 23 % 256 ≠ 255

/-- Exact rational value of a *finite* binary32 bit pattern (the value returned for a
NaN/infinity pattern is irrelevant: Python code paths that would inspect it either
carry the float opaquely into the record or go through `pyIntRound`, which tests
finiteness first). -/
def f32ToRat (w : Nat) : ℚ :=
  let sign : ℚ := if w / 2 ^ 31 % 2 = 1 then -1 else 1
  let e : Nat := w / 2 ^ 23 % 256
  let m : Nat := w % 2 ^ 23
  if e = 0 then sign * (m : ℚ) / 2 ^ 149
  else sign * ((2 ^ 23 + m : Nat) : ℚ) * (2 : ℚ) ^ e / 2 ^ 150

/-- Python `round` on a real value: round-half-to-even to an integer. -/
def roundHalfEven (x : ℚ) : Int :=
  let f := x.floor
  let r := x - f
  if r < 1 / 2 then f
  else if 1 / 2 < r then f + 1
  else if f % 2 = 0 then f else f + 1

/-- Python `int(round(x))` on the float with bit pattern `w`: raises `ValueError`
on NaN and `OverflowError` on infinity; defined on every finite pattern. -/
def pyIntRound (w : Nat) : Except String Int :=
  if f32IsFinite w then .ok (roundHalfEven (f32ToRat w))
  else if w % 2 ^ 23 ≠ 0 then .error "cannot convert float NaN to integer"
  else .error "cannot convert float infinity to integer"

/-- `floats_le` first component (bits 63..32, i.e. bytes 4‥7 little-endian). -/
def floats_le_hi (d : Bytes8) : Nat := u32_le d.b4 d.b5 d.b6 d.b7

/-- `floats_le` second component (bits 31..0, i.e. bytes 0‥3 little-endian). -/
def floats_le_lo (d : Bytes8) : Nat := u32_le d.b0 d.b1 d.b2 d.b3

/-! ### Records -/

/-- A scalar cell value of a decoded record (Python puts strings, ints, bools and
floats in the dicts; floats are carried as exact rationals). -/
inductive Val where
  | i : Int → Val
  | q : ℚ → Val
  | s : String → Val
  | b : Bool → Val
deriving DecidableEq

/-- One decoded record (one output row).  `timestamp`, `id_hex` and `message` are
present in every dict the decoders build; the remaining keys are kept as an ordered
association list; the `channel` key is attached by the engine only when the input
has a channel column (`none` = key absent, which is how the splitter's
`"channel" in df.columns` test is modelled). -/
structure Record where
  timestamp : String
  id_hex : String
  message : String
  fields : List (String × Val)
  channel : Option String := none
deriving DecidableEq

/-- `expand_bits_word`: 16 named 0/1 fields from a 16-bit word. -/
def expand_bits_word (word : Nat) (pre : String) : List (String × Val) :=
  (List.range 16).map (fun b =>
    (pre ++ "_bit" ++ toString b, Val.i (if word >>> b % 2 = 1 then 1 else 0)))

/-- `expand_bits_bytes` with the default prefix `"b"`. -/
def expand_bits_bytes (d : Bytes8) : List (String × Val) :=
  ([(0, d.b0), (1, d.b1), (2, d.b2), (3, d.b3), (4, d.b4), (5, d.b5), (6, d.b6),
    (7, d.b7)] : List (Nat × Nat)).flatMap (fun ib =>
    [("b" ++ toString ib.1, Val.i ib.2), ("b" ++ toString ib.1 ++ "_hex", Val.s (byteHexU ib.2))]
    ++ (List.range 8).map (fun bit =>
        ("b" ++ toString ib.1 ++ "_bit" ++ toString bit,
         Val.i (if ib.2 >>> bit % 2 = 1 then 1 else 0))))

/-! ### CAN1 (Orion + Thermistor) decoders -/

def OR_CAN_BASE : Int := 0x6B0
def OR_SVOLT : Int := OR_CAN_BASE + 0x00
def OR_PACK : Int := OR_CAN_BASE + 0x01
def OR_STEMP : Int := OR_CAN_BASE + 0x02
def OR_FLAGS : Int := OR_CAN_BASE + 0x03
def OR_AVOLT : Int := OR_CAN_BASE + 0x04
def OR_ATEMP : Int := OR_CAN_BASE + 0x05

def THERM_GENERAL : Int := 0x1838F380
def THERM_ADDRCLAIM : Int := 0x18EEFF80

def decode_or_svolt (ts : String) (can_id : Int) (d : Bytes8) : List Record :=
  [{ timestamp := ts, id_hex := pyHex can_id, message := "OR_SVOLT",
     fields := [("high_cell_voltage_V", .q ((u16_le d.b0 d.b1 : ℚ) / 10000)),
                ("high_cell_id", .i (d.b2 : Int)),
                ("low_cell_voltage_V", .q ((u16_le d.b4 d.b5 : ℚ) / 10000)),
                ("low_cell_id", .i (d.b6 : Int))] }]

def decode_or_pack (ts : String) (can_id : Int) (d : Bytes8) : List Record :=
  [{ timestamp := ts, id_hex := pyHex can_id, message := "OR_PACK",
     fields := [("pack_current_A", .q ((s16_le d.b0 d.b1 : ℚ) / 10)),
                ("pack_voltage_V", .q ((u16_le d.b2 d.b3 : ℚ) / 10)),
                ("state_of_charge_pct", .q ((u16_le d.b4 d.b5 : ℚ) / 2)),
                ("num_cells", .i (u16_le d.b6 d.b7 : Int))] }]

def decode_or_stemp (ts : String) (can_id : Int) (d : Bytes8) : List Record :=
  [{ timestamp := ts, id_hex := pyHex can_id, message := "OR_STEMP",
     fields := [("high_temp_C", .i (s16_le d.b0 d.b1)),
                ("high_temp_id", .i (u16_le d.b2 d.b3 : Int)),
                ("low_temp_C", .i (s16_le d.b4 d.b5)),
                ("low_temp_id", .i (u16_le d.b6 d.b7 : Int))] }]

def decode_or_flags (ts : String) (can_id : Int) (d : Bytes8) : List Record :=
  [{ timestamp := ts, id_hex := pyHex can_id, message := "OR_FLAGS",
     fields := [("flag0_low_cell_voltage", .b (d.b0 &&& 1 != 0)),
                ("flag0_high_cell_voltage", .b (d.b0 &&& 2 != 0)),
                ("flag0_over_temp", .b (d.b0 &&& 4 != 0)),
                ("flag0_open_wiring", .b (d.b0 &&& 8 != 0)),
                ("flag0_internal_comm", .b (d.b0 &&& 16 != 0)),
                ("flag0_charge_enable_relay", .b (d.b0 &&& 32 != 0)),
                ("flag0_discharge_relay", .b (d.b0 &&& 64 != 0)),
                ("flag0_blank", .b (d.b0 &&& 128 != 0)),
                ("raw_flags_hex", .s (bytesHex d))] }]

def decode_or_avolt (ts : String) (can_id : Int) (d : Bytes8) (include_bits : Bool) :
    List Record :=
  let res_raw := ((d.b3 &&& 0x7F) <<< 8) ||| d.b4
  [{ timestamp := ts, id_hex := pyHex can_id, message := "OR_AVOLT",
     fields := [("cell_id", .i (d.b0 : Int)),
                ("inst_voltage_V", .q ((u16_be d.b1 d.b2 : ℚ) / 10000)),
                ("internal_resistance_mOhm", .q ((res_raw : ℚ) / 100)),
                ("shunting", .b (d.b3 &&& 0x80 != 0)),
                ("open_circuit_voltage_V", .q ((u16_be d.b5 d.b6 : ℚ) / 10000)),
                ("checksum", .i (d.b7 : Int)),
                ("checksum_ok", .b (decide ((d.b7 : Int) = compute_checksum can_id d)))]
       ++ (if include_bits then expand_bits_bytes d else []) }]

def atempRec (ts : String) (can_id : Int) (tid : Nat) (temp : Int) : Record :=
  { timestamp := ts, id_hex := pyHex can_id, message := "OR_ATEMP",
    fields := [("thermistor_local_id", .i (tid : Int)), ("temp_C", .i temp)] }

/-- `decode_or_atemp`: four (id, temp) pairs; pairs after the first that are exactly
(0, 0) are skipped. -/
def decode_or_atemp (ts : String) (can_id : Int) (d : Bytes8) : List Record :=
  [atempRec ts can_id d.b0 (s8 d.b1)]
  ++ (if d.b2 = 0 ∧ s8 d.b3 = 0 then [] else [atempRec ts can_id d.b2 (s8 d.b3)])
  ++ (if d.b4 = 0 ∧ s8 d.b5 = 0 then [] else [atempRec ts can_id d.b4 (s8 d.b5)])
  ++ (if d.b6 = 0 ∧ s8 d.b7 = 0 then [] else [atempRec ts can_id d.b6 (s8 d.b7)])

def decode_therm_general (ts : String) (can_id : Int) (d : Bytes8) : List Record :=
  [{ timestamp := ts, id_hex := pyHex can_id, message := "THERM_GENERAL",
     fields := [("thermistor_global_id", .i (d.b0 : Int)),
                ("temp_C", .i (s8 d.b1)),
                ("thermistor_local_id", .i ((d.b2 &&& 0x7F : Nat) : Int)),
                ("local_fault", .b (d.b2 &&& 0x80 != 0)),
                ("lowest_temp_C", .i (s8 d.b3)),
                ("highest_temp_C", .i (s8 d.b4)),
                ("module_highest_id", .i (d.b5 : Int)),
                ("module_lowest_id", .i (d.b6 : Int)),
                ("reserved", .i (d.b7 : Int))] }]

def decode_therm_addrclaim (ts : String) (can_id : Int) (d : Bytes8) : List Record :=
  [{ timestamp := ts, id_hex := pyHex can_id, message := "THERM_ADDR_CLAIM",
     fields := [("unique_id_hex", .s (byteHexL d.b0 ++ byteHexL d.b1 ++ byteHexL d.b2)),
                ("bms_target_addr", .i (d.b3 : Int)),
                ("module_number_shifted", .i (d.b4 : Int)),
                ("const_5", .i (d.b5 : Int)),
                ("const_6", .i (d.b6 : Int)),
                ("const_7", .i (d.b7 : Int))] }]

/-! ### CAN2 (MC/DC/STW/BP/MPPT) decoders -/

def MC_CAN_BASE1 : Int := 0x400
def MC_CAN_BASE2 : Int := 0x420
def DC_CAN_BASE : Int := 0x500
def STW_CAN_BASE : Int := 0x540
def BP_CAN_BASE : Int := 0x580
def MPPT_CAN_BASE : Int := 0x600
def MPPT_CAN_ONOFF : Int := MPPT_CAN_BASE + 0x10

/-- `MC_OFFSETS.get(offset, f"MC_UNKNOWN_{offset:02X}")`. -/
def mcName (offset : Int) : String :=
  if offset = 0x01 then "MC_LIMITS"
  else if offset = 0x02 then "MC_BUS"
  else if offset = 0x03 then "MC_VELOCITY"
  else if offset = 0x04 then "MC_PHASE"
  else if offset = 0x05 then "MC_V_VECTOR"
  else if offset = 0x06 then "MC_I_VECTOR"
  else if offset = 0x07 then "MC_BEMF_VECTOR"
  else if offset = 0x08 then "MC_RAIL1"
  else if offset = 0x09 then "MC_RAIL2"
  else if offset = 0x0B then "MC_TEMP1"
  else if offset = 0x0C then "MC_TEMP2"
  else if offset = 0x0E then "MC_CUMULATIVE"
  else if offset = 0x17 then "MC_SLIPSPEED"
  else "MC_UNKNOWN_" ++ fmt02X offset

def dcName (offset : Int) : String :=
  if offset = 0x01 then "DC_DRIVE"
  else if offset = 0x02 then "DC_POWER"
  else if offset = 0x03 then "DC_RESET"
  else if offset = 0x04 then "DC_SWITCH"
  else "DC_UNKNOWN_" ++ fmt02X offset

def stwName (offset : Int) : String :=
  if offset = 0x01 then "STW_SWITCH" else "STW_UNKNOWN_" ++ fmt02X offset

def bpName (offset : Int) : String :=
  if offset = 0x01 then "BP_VMAX"
  else if offset = 0x02 then "BP_VMIN"
  else if offset = 0x03 then "BP_TMAX"
  else if offset = 0x04 then "BP_PCDONE"
  else if offset = 0x05 then "BP_ISH"
  else if offset = 0x06 then "BP_PVSS"
  else if offset = 0x07 then "BP_RESET"
  else "BP_UNKNOWN_" ++ fmt02X offset

/-- `split_words_le`: the four little-endian 16-bit words of the payload. -/
def split_words_le (d : Bytes8) : Nat × Nat × Nat × Nat :=
  (u16_le d.b0 d.b1, u16_le d.b2 d.b3, u16_le d.b4 d.b5, u16_le d.b6 d.b7)

def decode_mc (ts : String) (can_id : Int) (d : Bytes8) : List Record :=
  let base : Int :=
    if MC_CAN_BASE1 ≤ can_id ∧ can_id < MC_CAN_BASE1 + 0x20 then MC_CAN_BASE1 else MC_CAN_BASE2
  let offset := can_id - base
  let name := mcName offset
  let f_hi : ℚ := f32ToRat (floats_le_hi d)
  let f_lo : ℚ := f32ToRat (floats_le_lo d)
  let head : List (String × Val) := [("base_hex", .s (pyHex base)), ("offset", .i offset)]
  let extra : List (String × Val) :=
    if name = "MC_BUS" then [("bus_current_A", .q f_hi), ("bus_voltage_V", .q f_lo)]
    else if name = "MC_VELOCITY" then
      [("vehicle_velocity_mps", .q f_hi), ("motor_velocity_rpm", .q f_lo)]
    else if name = "MC_PHASE" then
      [("phase_c_current_arms", .q f_hi), ("phase_b_current_arms", .q f_lo)]
    else if name = "MC_V_VECTOR" then [("Vd", .q f_hi), ("Vq", .q f_lo)]
    else if name = "MC_I_VECTOR" then [("Id", .q f_hi), ("Iq", .q f_lo)]
    else if name = "MC_BEMF_VECTOR" then [("BEMFd", .q f_hi), ("BEMFq", .q f_lo)]
    else if name = "MC_TEMP1" then [("heatsink_temp_C", .q f_hi), ("motor_temp_C", .q f_lo)]
    else if name = "MC_TEMP2" then [("dsp_temp_C", .q f_lo)]
    else if name = "MC_CUMULATIVE" then [("dc_bus_Ah", .q f_hi), ("odometer_m", .q f_lo)]
    else if name = "MC_RAIL1" then [("rail_15V", .q f_hi)]
    else if name = "MC_RAIL2" then [("rail_3v3", .q f_hi), ("rail_1v9", .q f_lo)]
    else []
  [{ timestamp := ts, id_hex := pyHex can_id, message := name, fields := head ++ extra }]

def decode_dc (ts : String) (can_id : Int) (d : Bytes8) : List Record :=
  let offset := can_id - DC_CAN_BASE
  let name := dcName offset
  let f_hi : ℚ := f32ToRat (floats_le_hi d)
  let f_lo : ℚ := f32ToRat (floats_le_lo d)
  let head : List (String × Val) := [("offset", .i offset)]
  let extra : List (String × Val) :=
    if name = "DC_DRIVE" then
      [("motor_current_pct", .q (f_hi * 100)), ("motor_velocity_rpm", .q f_lo)]
    else if name = "DC_POWER" then [("bus_current_cmd_pct", .q (f_hi * 100))]
    else if name = "DC_SWITCH" then
      expand_bits_word (split_words_le d).1 "dc_switch_pos"
      ++ expand_bits_word (split_words_le d).2.1 "dc_switch_change"
    else []
  [{ timestamp := ts, id_hex := pyHex can_id, message := name, fields := head ++ extra }]

def decode_stw (ts : String) (can_id : Int) (d : Bytes8) : List Record :=
  let offset := can_id - STW_CAN_BASE
  let name := stwName offset
  let w0 := (split_words_le d).1
  let w1 := (split_words_le d).2.1
  let w2 := (split_words_le d).2.2.1
  let w3 := (split_words_le d).2.2.2
  let extra : List (String × Val) :=
    if name = "STW_SWITCH" then
      expand_bits_word w0 "stw_pos" ++ expand_bits_word w1 "stw_change"
      ++ [("stw_pos_horn", .i (if w0 >>> 0 % 2 = 1 then 1 else 0)),
          ("stw_pos_ind_l", .i (if w0 >>> 1 % 2 = 1 then 1 else 0)),
          ("stw_pos_ind_r", .i (if w0 >>> 2 % 2 = 1 then 1 else 0)),
          ("stw_pos_regen", .i (if w0 >>> 3 % 2 = 1 then 1 else 0)),
          ("stw_pos_cruise", .i (if w0 >>> 4 % 2 = 1 then 1 else 0))]
    else [("word0", .i (w0 : Int)), ("word1", .i (w1 : Int)),
          ("word2", .i (w2 : Int)), ("word3", .i (w3 : Int))]
  [{ timestamp := ts, id_hex := pyHex can_id, message := name, fields := extra }]

/-- `decode_bp`: the only decoder that can raise — `int(round(...))` on the cell-id /
temp-cell float raises `ValueError`/`OverflowError` when the low 32-bit word is a
NaN or an infinity. -/
def decode_bp (ts : String) (can_id : Int) (d : Bytes8) : Except String (List Record) :=
  let offset := can_id - BP_CAN_BASE
  let name := bpName offset
  let f_hi : ℚ := f32ToRat (floats_le_hi d)
  let f_lo : ℚ := f32ToRat (floats_le_lo d)
  let mk (extra : List (String × Val)) : Record :=
    { timestamp := ts, id_hex := pyHex can_id, message := name,
      fields := [("offset", .i offset)] ++ extra }
  if name = "BP_VMAX" then
    (pyIntRound (floats_le_lo d)).map (fun n =>
      [mk [("max_cell_voltage_V", .q f_hi), ("max_cell_id", .i n)]])
  else if name = "BP_VMIN" then
    (pyIntRound (floats_le_lo d)).map (fun n =>
      [mk [("min_cell_voltage_V", .q f_hi), ("min_cell_id", .i n)]])
  else if name = "BP_TMAX" then
    (pyIntRound (floats_le_lo d)).map (fun n =>
      [mk [("max_temp_C", .q f_hi), ("max_temp_cell", .i n)]])
  else if name = "BP_ISH" then
    .ok [mk [("shunt_current_A", .q f_hi), ("state_of_charge_pct", .q f_lo)]]
  else if name = "BP_PVSS" then
    .ok [mk [("pack_voltage_V", .q f_lo), ("shunt_sum", .q f_hi)]]
  else .ok [mk []]

def decode_mppt (ts : String) (can_id : Int) (d : Bytes8) : List Record :=
  let sub_id := can_id - MPPT_CAN_BASE
  let w0 := (split_words_le d).1
  let w1 := (split_words_le d).2.1
  let w2 := (split_words_le d).2.2.1
  let w3 := (split_words_le d).2.2.2
  [{ timestamp := ts, id_hex := pyHex can_id, message := "MPPT",
     fields := [("sub_id", .i sub_id), ("word0", .i (w0 : Int)), ("word1", .i (w1 : Int)),
                ("word2", .i (w2 : Int)), ("word3", .i (w3 : Int))]
       ++ (if can_id = MPPT_CAN_ONOFF then [("mppt_onoff_cmd", .i (d.b0 : Int))] else []) }]

/-! ### Dispatch -/

/-- `DECODERS_EXACT.get(can_id)` followed by the call `dec(ts, can_id, data_b)`
(no keyword arguments, so `decode_or_avolt` runs with `include_bits=False`). -/
def DECODERS_EXACT (ts : String) (can_id : Int) (d : Bytes8) : Option (List Record) :=
  if can_id = OR_SVOLT then some (decode_or_svolt ts can_id d)
  else if can_id = OR_PACK then some (decode_or_pack ts can_id d)
  else if can_id = OR_STEMP then some (decode_or_stemp ts can_id d)
  else if can_id = OR_FLAGS then some (decode_or_flags ts can_id d)
  else if can_id = OR_AVOLT then some (decode_or_avolt ts can_id d false)
  else if can_id = OR_ATEMP then some (decode_or_atemp ts can_id d)
  else if can_id = THERM_GENERAL then some (decode_therm_general ts can_id d)
  else if can_id = THERM_ADDRCLAIM then some (decode_therm_addrclaim ts can_id d)
  else if can_id = MPPT_CAN_ONOFF then some (decode_mppt ts can_id d)
  else none

/-- `decode_dynamic`: range dispatch; `.ok none` is Python's `None` (raw
passthrough), `.error` a propagating decoder exception. -/
def decode_dynamic (ts : String) (can_id : Int) (d : Bytes8) :
    Except String (Option (List Record)) :=
  if (MC_CAN_BASE1 ≤ can_id ∧ can_id < MC_CAN_BASE1 + 0x20)
      ∨ (MC_CAN_BASE2 ≤ can_id ∧ can_id < MC_CAN_BASE2 + 0x20) then
    .ok (some (decode_mc ts can_id d))
  else if DC_CAN_BASE ≤ can_id ∧ can_id < DC_CAN_BASE + 0x10 then
    .ok (some (decode_dc ts can_id d))
  else if STW_CAN_BASE ≤ can_id ∧ can_id < STW_CAN_BASE + 0x10 then
    .ok (some (decode_stw ts can_id d))
  else if BP_CAN_BASE ≤ can_id ∧ can_id < BP_CAN_BASE + 0x10 then
    (decode_bp ts can_id d).map some
  else if MPPT_CAN_BASE ≤ can_id ∧ can_id < MPPT_CAN_BASE + 0x20 then
    .ok (some (decode_mppt ts can_id d))
  else .ok none

/-- The engine's per-frame dispatch: exact table first, then `decode_dynamic`. -/
def decodeFrame (ts : String) (can_id : Int) (d : Bytes8) :
    Except String (Option (List Record)) :=
  match DECODERS_EXACT ts can_id d with
  | some recs => .ok (some recs)
  | none => decode_dynamic ts can_id d

/-! ### `known_columns` (the fixed output schema) -/

def known_columns (include_bits : Bool) : List String :=
  let base : List String :=
    ["timestamp", "id_hex", "message", "channel", "raw_data",
     "base_hex", "offset", "sub_id",
     "bus_current_A", "bus_voltage_V",
     "vehicle_velocity_mps", "motor_velocity_rpm",
     "phase_c_current_arms", "phase_b_current_arms",
     "Vd", "Vq", "Id", "Iq", "BEMFd", "BEMFq",
     "heatsink_temp_C", "motor_temp_C", "dsp_temp_C",
     "dc_bus_Ah", "odometer_m", "rail_15V", "rail_3v3", "rail_1v9"]
    ++ (List.range 16).map (fun i => "mc_limit_bit" ++ toString i)
    ++ (List.range 16).map (fun i => "dc_switch_pos_bit" ++ toString i)
    ++ (List.range 16).map (fun i => "dc_switch_change_bit" ++ toString i)
    ++ (List.range 16).map (fun i => "stw_pos_bit" ++ toString i)
    ++ (List.range 16).map (fun i => "stw_change_bit" ++ toString i)
    ++ ["stw_pos_horn", "stw_pos_ind_l", "stw_pos_ind_r", "stw_pos_regen", "stw_pos_cruise",
        "max_cell_voltage_V", "max_cell_id",
        "min_cell_voltage_V", "min_cell_id",
        "max_temp_C", "max_temp_cell",
        "shunt_current_A", "state_of_charge_pct",
        "pack_voltage_V", "shunt_sum",
        "mppt_onoff_cmd",
        "high_cell_voltage_V", "high_cell_id", "low_cell_voltage_V", "low_cell_id",
        "pack_current_A", "pack_voltage_V_orion", "state_of_charge_pct_orion", "num_cells",
        "high_temp_C_orion", "high_temp_id", "low_temp_C_orion", "low_temp_id",
        "flag0_low_cell_voltage", "flag0_high_cell_voltage", "flag0_over_temp",
        "flag0_open_wiring",
        "flag0_internal_comm", "flag0_charge_enable_relay", "flag0_discharge_relay",
        "flag0_blank",
        "raw_flags_hex",
        "cell_id", "inst_voltage_V", "internal_resistance_mOhm", "shunting",
        "open_circuit_voltage_V", "checksum", "checksum_ok",
        "thermistor_local_id", "temp_C", "thermistor_global_id", "local_fault",
        "lowest_temp_C",
        "highest_temp_C", "module_highest_id", "module_lowest_id",
        "unique_id_hex", "bms_target_addr", "module_number_shifted", "const_5", "const_6",
        "const_7"]
  if include_bits then
    base ++ (List.range 8).flatMap (fun i =>
      ["b" ++ toString i, "b" ++ toString i ++ "_hex"]
      ++ (List.range 8).map (fun b => "b" ++ toString i ++ "_bit" ++ toString b))
  else base

/-! ### `PartitionedCSVWriter`

One output file is its written header plus its data rows.  `write_df` reindexes every
batch to the writer's fixed `columns`, so the header written to each file is exactly
`columns`; the rows themselves are kept as records (each CSV cell is the projection of
the record onto a column, which no claim inspects).  `_roll` plus the empty-chunk
write that immediately follows it in `write_df`'s loop (the `room <= 0` iteration has
`take = 0`) is fused into `rollWrite`: a new file holding only its header. -/

def EXCEL_XLSX_MAX_ROWS : Nat := 1048576
def EXCEL_XLS_MAX_ROWS : Nat := 65536
def CHUNK_ROWS : Nat := 300000
def FLUSH_EVERY : Nat := 10000

structure OutFile where
  header : List String
  rows : List Record
deriving DecidableEq

structure WriterState where
  base : String
  ext : String
  row_limit : Nat
  columns : List String
  part : Nat
  count_in_part : Nat
  files : List OutFile
  header_written : Bool
deriving DecidableEq

/-- `PartitionedCSVWriter.__init__` (the path is pre-split into base and extension,
mirroring `os.path.splitext`). -/
def initWriter (base ext : String) (row_limit : Nat) (columns : List String) : WriterState :=
  { base := base, ext := ext, row_limit := row_limit, columns := columns,
    part := 1, count_in_part := 0, files := [], header_written := false }

/-- `_path()`: first file uses the exact name, later parts add `_partN`. -/
def partPath (base ext : String) (n : Nat) : String :=
  if n = 1 then base ++ ext else base ++ "_part" ++ toString n ++ ext

/-- The writer's `paths` attribute (one path per created file, in creation order). -/
def writerPaths (w : WriterState) : List String :=
  (List.range w.files.length).map (fun i => partPath w.base w.ext (i + 1))

/-- `_roll()` fused with the empty write that creates the next file and its header. -/
def rollWrite (w : WriterState) : WriterState :=
  { w with part := w.part + 1, count_in_part := 0,
           files := w.files ++ [⟨w.columns, []⟩], header_written := true }

/-- One `chunk.to_csv(...)` call: append the chunk to the current part's file,
creating the file (with its header) if this part has not been written yet. -/
def appendChunk (w : WriterState) (chunk : List Record) : WriterState :=
  if w.files.length < w.part then
    { w with files := w.files ++ [⟨w.columns, chunk⟩], header_written := true,
             count_in_part := w.count_in_part + chunk.length }
  else
    { w with
        files := w.files.dropLast
          ++ [⟨(w.files.getLast?.elim w.columns OutFile.header),
               (w.files.getLast?.elim [] OutFile.rows) ++ chunk⟩],
        header_written := true,
        count_in_part := w.count_in_part + chunk.length }

/-- The `while start < n` loop of `write_df`.  The fuel is structural bookkeeping
only: every iteration with a positive `row_limit` consumes at least one row, so
`rows.length` fuel always suffices (with `row_limit = 0` the Python loop would not
terminate; the model stops instead, which no claim exercises). -/
def writeLoop : Nat → WriterState → List Record → WriterState
  | _, w, [] => w
  | 0, w, _ :: _ => w
  | fuel + 1, w, a :: t =>
    let w1 := if w.row_limit - w.count_in_part = 0 then rollWrite w else w
    let takeN := min (w1.row_limit - w1.count_in_part) (a :: t).length
    if takeN = 0 then w1
    else writeLoop fuel (appendChunk w1 ((a :: t).take takeN)) ((a :: t).drop takeN)

/-- `write_df`: empty batches return immediately (no file is created). -/
def write_df (w : WriterState) (df : List Record) : WriterState :=
  if df = [] then w else writeLoop df.length w df

/-! ### Streaming engine (`_stream_decode`)

The input CSV is a header row plus data rows (cells aligned with the header; a
missing cell reads as `""`, matching `dtype=str, keep_default_na=False`).  Chunked
reading (`chunksize=CHUNK_ROWS`) is `chunksOf`; `usecols` restricts the loaded
columns to `{id, data, timestamp, channel}`, which is transparent here because the
engine only ever reads those four.  The per-run progress-callback invocations are
reified as a list of (fraction, status-text) pairs; `peakBuf` records the largest
buffer length observed at the per-row flush-threshold check, and `decoded` the total
number of decoded records produced (one per record, so a multi-record frame counts
once per record) — both are ghost observations of quantities the spec talks about,
not program state. -/

structure CsvInput where
  header : List String
  rows : List (List String)
deriving DecidableEq

/-- `chunk.columns = [c.strip().lower() for c in chunk.columns]`. -/
def normCols (h : List String) : List String :=
  h.map (fun c => pyLower (pyStrip c))

/-- `name in chunk.columns` (after normalisation). -/
def hasCol (h : List String) (name : String) : Bool :=
  (normCols h).contains name

/-- `r.get(name, "")`: the row's cell under the (normalised) column `name`. -/
def cell (h : List String) (row : List String) (name : String) : String :=
  match (normCols h).findIdx? (fun c => c == name) with
  | some i => row.getD i ""
  | none => ""

/-- `r.get("channel", None)`: `none` exactly when the column is absent. -/
def chanOf (h : List String) (row : List String) : Option String :=
  if hasCol h "channel" then some (cell h row "channel") else none

/-- The fixed battery-bus message-name set used for fallback routing. -/
def can1_msgs : List String :=
  ["OR_SVOLT", "OR_PACK", "OR_STEMP", "OR_FLAGS", "OR_AVOLT", "OR_ATEMP",
   "THERM_GENERAL", "THERM_ADDRCLAIM"]

structure EngineSt where
  wOne : Option WriterState
  wC0 : Option WriterState
  wC1 : Option WriterState
  buf : List Record
  peakBuf : Nat
  decoded : Nat
deriving DecidableEq

/-- `df["channel"].astype(str).str.lower()` for one record (`astype(str)` renders a
missing value as `"nan"`; a flushed batch mixes tagged and untagged records only if
its input did, which one fixed header cannot produce, but the rendering is kept). -/
def chanLower (r : Record) : String :=
  pyLower (r.channel.elim "nan" id)

/-- `flush()`: build the batch, in split mode partition it (explicit channel tag if
the batch has a channel column, else membership of `message` in `can1_msgs`) and
write each group to its writer; then clear the buffer.  The two submitted writes
always complete before `flush` returns (`fut.result()`), so they are sequential
state updates on disjoint writer states. -/
def flush (split : Bool) (st : EngineSt) : EngineSt :=
  if st.buf = [] then st
  else if split then
    let hasChan := st.buf.any (fun r => r.channel.isSome)
    let df_c1 :=
      if hasChan then st.buf.filter (fun r => chanLower r == "can1")
      else st.buf.filter (fun r => can1_msgs.contains r.message)
    let df_c0 :=
      if hasChan then st.buf.filter (fun r => chanLower r == "can0")
      else st.buf.filter (fun r => !can1_msgs.contains r.message)
    { st with wC0 := st.wC0.map (fun w => write_df w df_c0),
              wC1 := st.wC1.map (fun w => write_df w df_c1),
              buf := [] }
  else
    { st with wOne := st.wOne.map (fun w => write_df w st.buf), buf := [] }

/-- The data-cell normalisation pipeline:
`str(r.get("data","")).replace(" ", "").strip()`, then `[:16].ljust(16, "0")`. -/
def paddedData (s : String) : String :=
  ljustZero (pyTake (pyStrip (removeSpaces s)) 16) 16

/-- The `RAW` passthrough row for an unknown arbitration id. -/
def rawRecord (ts : String) (can_id : Int) (data_s : String) (data_b : Bytes8)
    (include_bits : Bool) (chan : Option String) : Record :=
  { timestamp := ts, id_hex := pyHex can_id, message := "RAW",
    fields := [("raw_data", .s data_s)]
      ++ (if include_bits then expand_bits_bytes data_b else []),
    channel := chan }

/-- The per-record updates the engine applies after decode (`rr.update(...)` with the
bit expansion when requested, and the channel tag when the input has one). -/
def addExtras (include_bits : Bool) (data_b : Bytes8) (chan : Option String)
    (r : Record) : Record :=
  { r with fields := r.fields ++ (if include_bits then expand_bits_bytes data_b else []),
           channel := chan }

/-- One iteration of the row loop: skip on empty/unparseable id or non-hex data,
decode, append the records, and flush once the buffer has reached `FLUSH_EVERY`. -/
def processRow (include_bits split : Bool) (header : List String) (st : EngineSt)
    (row : List String) : Except String EngineSt :=
  let sid := pyStrip (cell header row "id")
  if sid = "" then .ok st
  else
    match parse_can_id sid with
    | none => .ok st
    | some can_id =>
      let data_s := paddedData (cell header row "data")
      match bytesFromHex data_s with
      | none => .ok st
      | some data_b =>
        let ts := cell header row "timestamp"
        let chan := chanOf header row
        match decodeFrame ts can_id data_b with
        | .error e => .error e
        | .ok orecs =>
          let recs :=
            match orecs with
            | none => [rawRecord ts can_id data_s data_b include_bits chan]
            | some rs => rs.map (addExtras include_bits data_b chan)
          let buf2 := st.buf ++ recs
          let st2 := { st with buf := buf2, peakBuf := max st.peakBuf buf2.length,
                               decoded := st.decoded + recs.length }
          .ok (if FLUSH_EVERY ≤ buf2.length then flush split st2 else st2)

/-- The row loop over one chunk. -/
def processRows (include_bits split : Bool) (header : List String) :
    EngineSt → List (List String) → Except String EngineSt
  | st, [] => .ok st
  | st, row :: rest =>
    match processRow include_bits split header st row with
    | .error e => .error e
    | .ok st2 => processRows include_bits split header st2 rest

/-- Fixed-size chunking (the fuel `l.length` always suffices for a positive chunk
size, which `CHUNK_ROWS` is). -/
def chunksOfAux {α : Type} (n : Nat) : Nat → List α → List (List α)
  | _, [] => []
  | 0, l => [l]
  | fuel + 1, a :: t => (a :: t).take n :: chunksOfAux n fuel ((a :: t).drop n)

def chunksOf {α : Type} (n : Nat) (l : List α) : List (List α) :=
  chunksOfAux n l.length l

/-- The optional per-chunk channel filter
(`if channel and "channel" in chunk.columns`). -/
def chunkFilter (channel : Option String) (header : List String)
    (rows : List (List String)) : List (List String) :=
  match channel with
  | some c =>
    if c ≠ "" ∧ hasCol header "channel" then
      rows.filter (fun row => pyLower (cell header row "channel") == pyLower c)
    else rows
  | none => rows

/-- One progress-callback invocation at a chunk boundary. -/
def progressEntry (rows_processed total_rows : Nat) : ℚ × String :=
  if total_rows ≠ 0 then
    (min ((rows_processed : ℚ) / (total_rows : ℚ)) (999 / 1000),
     "Processed " ++ toString rows_processed ++ " of " ++ toString total_rows ++ " rows")
  else ((0 : ℚ), "Processed " ++ toString rows_processed ++ " rows")

/-- The chunk loop: filter, skip the whole chunk when the id/data columns are
missing (no flush, no progress call), otherwise decode its rows, flush, count it and
report progress. -/
def runChunks (include_bits split : Bool) (channel : Option String)
    (header : List String) (total_rows : Nat) (hasCb : Bool) :
    EngineSt × Nat × List (ℚ × String) → List (List (List String)) →
    Except String (EngineSt × Nat × List (ℚ × String))
  | acc, [] => .ok acc
  | (st, rows_processed, prog), chunk :: rest =>
    let chunkF := chunkFilter channel header chunk
    if hasCol header "id" ∧ hasCol header "data" then
      match processRows include_bits split header st chunkF with
      | .error e => .error e
      | .ok st1 =>
        let st2 := flush split st1
        let rp2 := rows_processed + chunkF.length
        let prog2 := if hasCb then prog ++ [progressEntry rp2 total_rows] else prog
        runChunks include_bits split channel header total_rows hasCb (st2, rp2, prog2) rest
    else
      runChunks include_bits split channel header total_rows hasCb
        (st, rows_processed + chunkF.length, prog) rest

/-- The observable outcome of a streaming run: the returned output paths, the final
writer states (with their files), the progress-callback trace, and the two ghost
counters. -/
structure RunResult where
  outputs : List String
  wOne : Option WriterState
  wC0 : Option WriterState
  wC1 : Option WriterState
  progress : List (ℚ × String)
  peakBuf : Nat
  decoded : Nat
deriving DecidableEq

/-- `_stream_decode`.  Output paths are pre-split (base, extension) pairs.
`_estimate_total_rows` counts the input file's lines minus the header, i.e.
`rows.length` (it is only consulted when a progress callback is given).  An
`.error` is a propagating Python exception: the run produces no return value (files
already flushed stay on disk, as in Python, but the function's observables are
gone). -/
def streamDecode (input : CsvInput) (include_bits : Bool) (channel : Option String)
    (split : Bool) (out_one out_can1 out_can2 : Option (String × String))
    (row_limit : Nat) (hasCb : Bool) : Except String RunResult :=
  let cols := known_columns include_bits
  let total_rows := if hasCb then input.rows.length else 0
  let prog0 : List (ℚ × String) := if hasCb then [((0 : ℚ), "Starting decode")] else []
  let init : Except String EngineSt :=
    if split then
      match out_can1, out_can2 with
      | some p1, some p2 =>
        .ok ⟨none, some (initWriter p1.1 p1.2 row_limit cols),
             some (initWriter p2.1 p2.2 row_limit cols), [], 0, 0⟩
      | _, _ => .error "Split output paths must be provided when split=True"
    else
      match out_one with
      | some p => .ok ⟨some (initWriter p.1 p.2 row_limit cols), none, none, [], 0, 0⟩
      | none => .error "Output path must be provided when split=False"
  match init with
  | .error e => .error e
  | .ok st0 =>
    match runChunks include_bits split channel input.header total_rows hasCb
        (st0, 0, prog0) (chunksOf CHUNK_ROWS input.rows) with
    | .error e => .error e
    | .ok (st, _, prog) =>
      let progF := if hasCb then prog ++ [((1 : ℚ), "Decoding complete")] else prog
      let outputs :=
        if split then (st.wC0.elim [] writerPaths) ++ (st.wC1.elim [] writerPaths)
        else st.wOne.elim [] writerPaths
      .ok ⟨outputs, st.wOne, st.wC0, st.wC1, progF, st.peakBuf, st.decoded⟩

/-- `decode_csv_one`. -/
def decode_csv_one (input : CsvInput) (output : String × String) (include_bits : Bool)
    (channel : Option String) (row_limit : Nat) (hasCb : Bool) : Except String RunResult :=
  streamDecode input include_bits channel false (some output) none none row_limit hasCb

/-- `decode_csv_split`. -/
def decode_csv_split (input : CsvInput) (out_can1 out_can2 : String × String)
    (include_bits : Bool) (channel : Option String) (row_limit : Nat) (hasCb : Bool) :
    Except String RunResult :=
  streamDecode input include_bits channel true none (some out_can1) (some out_can2)
    row_limit hasCb

/-! ### Derived observations used by the claims -/

/-- Total number of data rows across a writer's files (one output stream). -/
def totalFileRows (w : WriterState) : Nat :=
  (w.files.map (fun f => f.rows.length)).sum

/-- Total data rows of an optional writer. -/
def streamTotal (o : Option WriterState) : Nat :=
  o.elim 0 totalFileRows

/-- All data rows of a writer's files, in order. -/
def joinedRows (w : WriterState) : List Record :=
  (w.files.map OutFile.rows).flatten

/-- The id of an arbitration id outside every known exact id and family range
(the raw-passthrough condition). -/
def unknownId (c : Int) : Prop :=
  c ≠ OR_SVOLT ∧ c ≠ OR_PACK ∧ c ≠ OR_STEMP ∧ c ≠ OR_FLAGS ∧ c ≠ OR_AVOLT ∧
  c ≠ OR_ATEMP ∧ c ≠ THERM_GENERAL ∧ c ≠ THERM_ADDRCLAIM ∧ c ≠ MPPT_CAN_ONOFF ∧
  ¬(MC_CAN_BASE1 ≤ c ∧ c < MC_CAN_BASE1 + 0x20) ∧
  ¬(MC_CAN_BASE2 ≤ c ∧ c < MC_CAN_BASE2 + 0x20) ∧
  ¬(DC_CAN_BASE ≤ c ∧ c < DC_CAN_BASE + 0x10) ∧
  ¬(STW_CAN_BASE ≤ c ∧ c < STW_CAN_BASE + 0x10) ∧
  ¬(BP_CAN_BASE ≤ c ∧ c < BP_CAN_BASE + 0x10) ∧
  ¬(MPPT_CAN_BASE ≤ c ∧ c < MPPT_CAN_BASE + 0x20)

instance (c : Int) : Decidable (unknownId c) := by unfold unknownId; infer_instance

/-- Number of input rows the engine skips at row level: empty or unparseable id, or
data whose padded form is not valid hex (the quantity the spec's "skip counter"
would count). -/
def skippedRowCount (input : CsvInput) : Nat :=
  (input.rows.filter (fun row =>
    let sid := pyStrip (cell input.header row "id")
    !(sid != "" && (parse_can_id sid).isSome
      && (bytesFromHex (paddedData (cell input.header row "data"))).isSome))).length

/-- The checksum-validity cell of the (single) record a cell-broadcast payload
decodes to. -/
def avoltChecksumCell (ts : String) (d : Bytes8) : Option Val :=
  ((decode_or_avolt ts OR_AVOLT d false).head?).bind
    (fun r => r.fields.lookup "checksum_ok")

/-! ### Invariants and concrete inputs used by the claim statements -/

/-- Writer well-formedness between `write_df` calls: every file respects the row
ceiling and carries the fixed header; the current part's fill count matches the last
file (or the writer is fresh). -/
def WInv (w : WriterState) : Prop :=
  (∀ f ∈ w.files, f.rows.length ≤ w.row_limit ∧ f.header = w.columns) ∧
  w.count_in_part ≤ w.row_limit ∧ 1 ≤ w.part ∧
  ((w.files.length + 1 = w.part ∧ w.count_in_part = 0) ∨
   (w.files.length = w.part ∧
    (w.files.getLast?.elim 0 (fun f => f.rows.length)) = w.count_in_part))

/-- Every buffered record is untagged (no channel column in the input). -/
def NoChanBuf (st : EngineSt) : Prop := ∀ r ∈ st.buf, r.channel = none

/-- Split-mode accounting invariant: both stream writers exist with the configured
row ceiling and are well-formed, and every decoded record so far is either written to
one of the two streams or still buffered. -/
def SplitAcct (rl : Nat) (st : EngineSt) : Prop :=
  (∃ w, st.wC0 = some w ∧ w.row_limit = rl ∧ WInv w) ∧
  (∃ w, st.wC1 = some w ∧ w.row_limit = rl ∧ WInv w) ∧
  streamTotal st.wC0 + streamTotal st.wC1 + st.buf.length = st.decoded

/-- Buffer-bound invariant at row boundaries: the buffer is strictly below the flush
threshold, and the largest buffer the threshold check has seen is at most
`FLUSH_EVERY + 3` (a frame yields at most 4 records). -/
def BufBound (st : EngineSt) : Prop :=
  st.buf.length < FLUSH_EVERY ∧ st.peakBuf ≤ FLUSH_EVERY + 3

/-- A minimal record for exercising the partitioned writer on its own. -/
def simpleRec : Record := { timestamp := "t", id_hex := "0x0", message := "RAW", fields := [] }

/-- One good row (an `OR_SVOLT` frame). -/
def c6InputGood : CsvInput := ⟨["id", "data"], [["6B0", "00"]]⟩

/-- The same input plus one row whose id text is not hexadecimal. -/
def c6InputBad : CsvInput := ⟨["id", "data"], [["6B0", "00"], ["ZZ", "00"]]⟩

/-- A split-mode input whose single row carries the explicit channel tag `"x"`. -/
def c1TagInput : CsvInput := ⟨["id", "data", "channel"], [["6B0", "00", "x"]]⟩

/-- An input whose header lacks the `id` column. -/
def c3Input : CsvInput := ⟨["data", "timestamp"], [["AABB", "1"]]⟩

/-- A split-mode input with one thermistor address-claim frame and no channel
column. -/
def c10Input : CsvInput := ⟨["id", "data"], [["18EEFF80", "AABBCC0102030405"]]⟩

/-- An `OR_ATEMP` frame row whose payload holds four non-zero (id, temp) pairs, so
it decodes to 4 records. -/
def c7AtempRow : List String := ["6B5", "0101020103010401"]

/-- One single-record row followed by 2500 four-record rows: the buffer reaches
10001 records at the flush check of the final row. -/
def c7Input : CsvInput := ⟨["id", "data"], ["6B0", "00"] :: List.replicate 2500 c7AtempRow⟩

/-- The four records of one decoded `c7AtempRow` (with the engine's extras applied,
which for this input change nothing but the stated channel). -/
def c7AtempRecs : List Record :=
  (decode_or_atemp "" 1717 ⟨1, 1, 2, 1, 3, 1, 4, 1⟩).map (addExtras false ⟨1, 1, 2, 1, 3, 1, 4, 1⟩ none)

/-! ## Theorems

First, infrastructure lemmas about the partitioned writer and the chunking helper,
then one theorem (plus witness/counterexample where required) per claim. -/

theorem joinedRows_rollWrite (w : WriterState) : joinedRows (rollWrite w) = joinedRows w := by
  simp [joinedRows, rollWrite]

theorem joinedRows_appendChunk (w : WriterState) (c : List Record) :
    joinedRows (appendChunk w c) = joinedRows w ++ c := by
  unfold appendChunk
  by_cases hlt : w.files.length < w.part
  · simp [hlt, joinedRows]
  · rw [if_neg hlt]
    rcases List.eq_nil_or_concat w.files with h | ⟨l, a, h⟩
    · simp [h, joinedRows]
    · rw [List.concat_eq_append] at h
      simp [h, joinedRows, List.dropLast_concat, List.getLast?_concat]

theorem rollWrite_fields (w : WriterState) :
    (rollWrite w).row_limit = w.row_limit ∧ (rollWrite w).columns = w.columns ∧
    (rollWrite w).base = w.base ∧ (rollWrite w).ext = w.ext := by
  simp [rollWrite]

theorem appendChunk_fields (w : WriterState) (c : List Record) :
    (appendChunk w c).row_limit = w.row_limit ∧ (appendChunk w c).columns = w.columns ∧
    (appendChunk w c).base = w.base ∧ (appendChunk w c).ext = w.ext := by
  unfold appendChunk; split <;> simp

theorem writeLoop_basic (fuel : Nat) :
    ∀ (w : WriterState) (rows : List Record), rows.length ≤ fuel → 1 ≤ w.row_limit →
      joinedRows (writeLoop fuel w rows) = joinedRows w ++ rows ∧
      (writeLoop fuel w rows).row_limit = w.row_limit ∧
      (writeLoop fuel w rows).columns = w.columns := by
  induction fuel with
  | zero =>
    intro w rows hf _
    have : rows = [] := List.length_eq_zero.mp (Nat.le_zero.mp hf)
    subst this; simp [writeLoop]
  | succ f ih =>
    intro w rows hf hl
    cases rows with
    | nil => simp [writeLoop]
    | cons a t =>
      rw [writeLoop]
      set w1 := if w.row_limit - w.count_in_part = 0 then rollWrite w else w with hw1
      have hw1lim : w1.row_limit = w.row_limit := by
        rw [hw1]; split <;> simp [rollWrite]
      have hw1cols : w1.columns = w.columns := by
        rw [hw1]; split <;> simp [rollWrite]
      have hw1join : joinedRows w1 = joinedRows w := by
        rw [hw1]; split
        · exact joinedRows_rollWrite w
        · rfl
      set takeN := min (w1.row_limit - w1.count_in_part) (a :: t).length with htk
      have htkpos : takeN ≠ 0 := by
        rw [htk]
        rcases Nat.eq_zero_or_pos (w.row_limit - w.count_in_part) with h0 | hpos
        · rw [hw1, if_pos h0]
          have : (rollWrite w).row_limit - (rollWrite w).count_in_part = w.row_limit := by
            simp [rollWrite]
          rw [this]
          simp [Nat.min_eq_zero_iff]
          omega
        · rw [hw1, if_neg (by omega)]
          simp [Nat.min_eq_zero_iff]
          omega
      rw [if_neg htkpos]
      have hdrop : ((a :: t).drop takeN).length ≤ f := by
        simp only [List.length_drop]
        have : 1 ≤ takeN := Nat.one_le_iff_ne_zero.mpr htkpos
        have := hf
        simp only [List.length_cons] at this ⊢
        omega
      have hlim2 : 1 ≤ (appendChunk w1 ((a :: t).take takeN)).row_limit := by
        rw [(appendChunk_fields _ _).1, hw1lim]; exact hl
      obtain ⟨hj, hr, hc⟩ := ih (appendChunk w1 ((a :: t).take takeN)) ((a :: t).drop takeN)
        hdrop hlim2
      refine ⟨?_, ?_, ?_⟩
      · rw [hj, joinedRows_appendChunk, hw1join, List.append_assoc, List.take_append_drop]
      · rw [hr, (appendChunk_fields _ _).1, hw1lim]
      · rw [hc, (appendChunk_fields _ _).2.1, hw1cols]

theorem totalFileRows_eq_joined (w : WriterState) :
    totalFileRows w = (joinedRows w).length := by
  simp only [totalFileRows, joinedRows, List.length_flatten, List.map_map]
  rfl

theorem write_df_join (w : WriterState) (df : List Record) (hl : 1 ≤ w.row_limit) :
    joinedRows (write_df w df) = joinedRows w ++ df ∧
    (write_df w df).row_limit = w.row_limit ∧ (write_df w df).columns = w.columns := by
  unfold write_df
  split
  · next h => subst h; simp
  · exact writeLoop_basic df.length w df le_rfl hl

theorem write_df_total (w : WriterState) (df : List Record) (hl : 1 ≤ w.row_limit) :
    totalFileRows (write_df w df) = totalFileRows w + df.length := by
  rw [totalFileRows_eq_joined, totalFileRows_eq_joined, (write_df_join w df hl).1]
  simp

theorem chunksOfAux_fuel {α : Type} (n : Nat) (hn : 1 ≤ n) :
    ∀ (f1 : Nat) (l : List α) (f2 : Nat), l.length ≤ f1 → l.length ≤ f2 →
      chunksOfAux n f1 l = chunksOfAux n f2 l := by
  intro f1
  induction f1 with
  | zero =>
    intro l f2 h1 _
    have : l = [] := List.length_eq_zero.mp (Nat.le_zero.mp h1)
    subst this
    cases f2 <;> rfl
  | succ f ih =>
    intro l f2 h1 h2
    cases l with
    | nil => cases f2 <;> rfl
    | cons a t =>
      cases f2 with
      | zero => simp at h2
      | succ g =>
        rw [chunksOfAux, chunksOfAux]
        congr 1
        refine ih _ _ ?_ ?_ <;> simp only [List.length_drop, List.length_cons] at * <;> omega

theorem chunksOf_cons {α : Type} (n : Nat) (hn : 1 ≤ n) (l : List α) (hl : l ≠ []) :
    chunksOf n l = l.take n :: chunksOf n (l.drop n) := by
  cases l with
  | nil => exact absurd rfl hl
  | cons a t =>
    show chunksOfAux n (t.length + 1) (a :: t) = _
    rw [chunksOfAux]
    congr 1
    refine chunksOfAux_fuel n hn _ _ _ ?_ le_rfl
    simp only [List.length_drop, List.length_cons]
    omega

theorem WInv_rollWrite (w : WriterState) (hl : 1 ≤ w.row_limit)
    (hc : w.row_limit - w.count_in_part = 0) (h : WInv w) : WInv (rollWrite w) := by
  obtain ⟨hf, hcle, hp, hsh⟩ := h
  have hceq : w.count_in_part = w.row_limit := by omega
  rcases hsh with ⟨h1, h2⟩ | ⟨h1, h2⟩
  · omega
  · refine ⟨?_, by simp [rollWrite], by simp [rollWrite], Or.inr ⟨?_, ?_⟩⟩
    · intro f hfm
      simp only [rollWrite, List.mem_append, List.mem_singleton] at hfm
      rcases hfm with hfm | hfm
      · simpa [rollWrite] using hf f hfm
      · subst hfm; simp [rollWrite]
    · simp [rollWrite, h1]
    · simp [rollWrite]

theorem WInv_appendChunk (w : WriterState) (c : List Record)
    (hc : c.length ≤ w.row_limit - w.count_in_part) (h : WInv w) :
    WInv (appendChunk w c) := by
  obtain ⟨hf, hcle, hp, hsh⟩ := h
  unfold appendChunk
  by_cases hlt : w.files.length < w.part
  · rcases hsh with ⟨h1, h2⟩ | ⟨h1, h2⟩
    · rw [if_pos hlt]
      refine ⟨?_, by simp; omega, by simpa using hp, Or.inr ⟨by simp; omega, ?_⟩⟩
      · intro f hfm
        simp only [List.mem_append, List.mem_singleton] at hfm
        rcases hfm with hfm | hfm
        · exact hf f hfm
        · subst hfm; exact ⟨by simp; omega, by simp⟩
      · simp [List.getLast?_concat, h2]
    · omega
  · rw [if_neg hlt]
    rcases hsh with ⟨h1, h2⟩ | ⟨h1, h2⟩
    · omega
    · have hne : w.files ≠ [] := by
        intro hnil
        rw [hnil] at h1
        simp at h1
        omega
      rcases List.eq_nil_or_concat w.files with hnil | ⟨l, a, hcat⟩
      · exact absurd hnil hne
      · rw [List.concat_eq_append] at hcat
        have hlast : w.files.getLast? = some a := by rw [hcat]; exact List.getLast?_concat _
        have hdrop : w.files.dropLast = l := by rw [hcat]; exact List.dropLast_concat
        have halen : a.rows.length = w.count_in_part := by
          rw [hlast] at h2; simpa using h2
        have hahd : a.header = w.columns := (hf a (by rw [hcat]; simp)).2
        refine ⟨?_, by simp; omega, by simpa using hp, Or.inr ⟨?_, ?_⟩⟩
        · intro f hfm
          simp only [hlast, hdrop, Option.elim, List.mem_append, List.mem_singleton] at hfm
          rcases hfm with hfm | hfm
          · exact hf f (by rw [hcat]; exact List.mem_append_left _ hfm)
          · subst hfm
            refine ⟨by simp; omega, by simpa using hahd⟩
        · simp only [hlast, hdrop, Option.elim]
          have hlen : w.files.length = l.length + 1 := by rw [hcat]; simp
          simp only [List.length_append, List.length_singleton]
          omega
        · simp [hlast, hdrop, halen]

theorem writeLoop_WInv (fuel : Nat) :
    ∀ (w : WriterState) (rows : List Record), rows.length ≤ fuel → 1 ≤ w.row_limit →
      WInv w → WInv (writeLoop fuel w rows) := by
  induction fuel with
  | zero =>
    intro w rows hf _ h
    have : rows = [] := List.length_eq_zero.mp (Nat.le_zero.mp hf)
    subst this; simpa [writeLoop] using h
  | succ f ih =>
    intro w rows hf hl h
    cases rows with
    | nil => simpa [writeLoop] using h
    | cons a t =>
      rw [writeLoop]
      set w1 := if w.row_limit - w.count_in_part = 0 then rollWrite w else w with hw1
      have hw1lim : w1.row_limit = w.row_limit := by
        rw [hw1]; split <;> simp [rollWrite]
      have hw1inv : WInv w1 := by
        rw [hw1]; split
        · next hcond => exact WInv_rollWrite w hl hcond h
        · exact h
      set takeN := min (w1.row_limit - w1.count_in_part) (a :: t).length with htk
      have htkpos : takeN ≠ 0 := by
        rw [htk]
        rcases Nat.eq_zero_or_pos (w.row_limit - w.count_in_part) with h0 | hpos
        · rw [hw1, if_pos h0]
          have : (rollWrite w).row_limit - (rollWrite w).count_in_part = w.row_limit := by
            simp [rollWrite]
          rw [this]
          simp [Nat.min_eq_zero_iff]
          omega
        · rw [hw1, if_neg (by omega)]
          simp [Nat.min_eq_zero_iff]
          omega
      rw [if_neg htkpos]
      have hchunk : ((a :: t).take takeN).length ≤ w1.row_limit - w1.count_in_part := by
        simp only [List.length_take]
        omega
      have hinv2 : WInv (appendChunk w1 ((a :: t).take takeN)) :=
        WInv_appendChunk w1 _ hchunk hw1inv
      have hdrop : ((a :: t).drop takeN).length ≤ f := by
        simp only [List.length_drop]
        have : 1 ≤ takeN := Nat.one_le_iff_ne_zero.mpr htkpos
        simp only [List.length_cons] at hf ⊢
        omega
      have hlim2 : 1 ≤ (appendChunk w1 ((a :: t).take takeN)).row_limit := by
        rw [(appendChunk_fields _ _).1, hw1lim]; exact hl
      exact ih _ _ hdrop hlim2 hinv2

theorem write_df_WInv (w : WriterState) (df : List Record) (hl : 1 ≤ w.row_limit)
    (h : WInv w) : WInv (write_df w df) := by
  unfold write_df
  split
  · exact h
  · exact writeLoop_WInv df.length w df le_rfl hl h

theorem WInv_initWriter (base ext : String) (rl : Nat) (cols : List String) :
    WInv (initWriter base ext rl cols) := by
  refine ⟨by simp [initWriter], by simp [initWriter], by simp [initWriter], Or.inl ?_⟩
  simp [initWriter]

theorem writeLoop_files_fresh (fuel : Nat) :
    ∀ (w : WriterState) (rows : List Record), rows.length ≤ fuel → 1 ≤ w.row_limit →
      ((w.files.length + 1 = w.part ∧ w.count_in_part = 0) ∨
       (w.files.length = w.part ∧ w.count_in_part = w.row_limit)) →
      (writeLoop fuel w rows).files
        = w.files ++ (chunksOf w.row_limit rows).map
            (fun c => ({ header := w.columns, rows := c } : OutFile)) := by
  induction fuel with
  | zero =>
    intro w rows hf _ _
    have : rows = [] := List.length_eq_zero.mp (Nat.le_zero.mp hf)
    subst this
    simp [writeLoop, chunksOf, chunksOfAux]
  | succ f ih =>
    intro w rows hf hl hsh
    cases rows with
    | nil => simp [writeLoop, chunksOf, chunksOfAux]
    | cons a t =>
      rw [writeLoop]
      rcases hsh with ⟨h1, h2⟩ | ⟨h1, h2⟩
      · -- fresh current part, count 0: no roll
        have hcond : ¬(w.row_limit - w.count_in_part = 0) := by omega
        rw [if_neg hcond]
        set takeN := min (w.row_limit - w.count_in_part) (a :: t).length with htk
        have htkmin : takeN = min w.row_limit (a :: t).length := by rw [htk]; congr 1; omega
        have htkpos : takeN ≠ 0 := by
          rw [htkmin]; simp [Nat.min_eq_zero_iff]; omega
        rw [if_neg htkpos]
        have happ : appendChunk w ((a :: t).take takeN)
            = { w with files := w.files ++ [⟨w.columns, (a :: t).take takeN⟩],
                       header_written := true,
                       count_in_part := w.count_in_part + ((a :: t).take takeN).length } := by
          unfold appendChunk
          rw [if_pos (by omega)]
        rw [happ]
        by_cases hlen : (a :: t).length ≤ w.row_limit
        · have htkeq : takeN = (a :: t).length := by rw [htkmin]; omega
          have hdrop : (a :: t).drop takeN = [] := by rw [htkeq]; simp
          have htake : (a :: t).take takeN = a :: t := by rw [htkeq]; simp
          rw [hdrop]
          rw [chunksOf_cons _ hl _ (by simp)]
          have hdrop2 : (a :: t).drop w.row_limit = [] := List.drop_eq_nil_of_le hlen
          have htake2 : (a :: t).take w.row_limit = a :: t := List.take_of_length_le hlen
          simp [writeLoop, htake, hdrop2, htake2, chunksOf, chunksOfAux]
        · have htkeq : takeN = w.row_limit := by rw [htkmin]; omega
          have hlen' : w.row_limit < t.length + 1 := by
            simp only [List.length_cons] at hlen; omega
          have hmin : min w.row_limit (t.length + 1) = w.row_limit :=
            Nat.min_eq_left (by omega)
          have hrec := ih
            { w with files := w.files ++ [⟨w.columns, (a :: t).take takeN⟩],
                     header_written := true,
                     count_in_part := w.count_in_part + ((a :: t).take takeN).length }
            ((a :: t).drop takeN)
            (by
              simp only [List.length_drop, List.length_cons, htkeq]
              simp only [List.length_cons] at hf
              omega)
            (by simpa using hl)
            (by
              right
              refine ⟨by simp only [List.length_append, List.length_singleton]; omega, ?_⟩
              simp only [List.length_take, List.length_cons, htkeq, hmin, h2, Nat.zero_add])
          rw [hrec]
          simp only [htkeq]
          conv_rhs => rw [chunksOf_cons w.row_limit hl (a :: t) (by simp)]
          simp [List.append_assoc]
      · -- current part full: roll, then the (empty-chunk) merge into the new file
        have hcond : w.row_limit - w.count_in_part = 0 := by omega
        rw [if_pos hcond]
        set takeN := min ((rollWrite w).row_limit - (rollWrite w).count_in_part)
          (a :: t).length with htk
        have htkmin : takeN = min w.row_limit (a :: t).length := by
          rw [htk]; simp [rollWrite]
        have htkpos : takeN ≠ 0 := by
          rw [htkmin]; simp [Nat.min_eq_zero_iff]; omega
        rw [if_neg htkpos]
        have hnotlt : ¬((rollWrite w).files.length < (rollWrite w).part) := by
          simp [rollWrite]; omega
        have happ : appendChunk (rollWrite w) ((a :: t).take takeN)
            = { w with files := w.files ++ [⟨w.columns, (a :: t).take takeN⟩],
                       header_written := true,
                       part := w.part + 1,
                       count_in_part := ((a :: t).take takeN).length } := by
          unfold appendChunk
          rw [if_neg hnotlt]
          simp [rollWrite, List.getLast?_concat, List.dropLast_concat]
        rw [happ]
        by_cases hlen : (a :: t).length ≤ w.row_limit
        · have htkeq : takeN = (a :: t).length := by rw [htkmin]; omega
          have hdrop : (a :: t).drop takeN = [] := by rw [htkeq]; simp
          have htake : (a :: t).take takeN = a :: t := by rw [htkeq]; simp
          rw [hdrop]
          rw [chunksOf_cons _ hl _ (by simp)]
          have hdrop2 : (a :: t).drop w.row_limit = [] := List.drop_eq_nil_of_le hlen
          have htake2 : (a :: t).take w.row_limit = a :: t := List.take_of_length_le hlen
          simp [writeLoop, htake, hdrop2, htake2, chunksOf, chunksOfAux]
        · have htkeq : takeN = w.row_limit := by rw [htkmin]; omega
          have hlen' : w.row_limit < t.length + 1 := by
            simp only [List.length_cons] at hlen; omega
          have hmin : min w.row_limit (t.length + 1) = w.row_limit :=
            Nat.min_eq_left (by omega)
          have hrec := ih
            { w with files := w.files ++ [⟨w.columns, (a :: t).take takeN⟩],
                     header_written := true,
                     part := w.part + 1,
                     count_in_part := ((a :: t).take takeN).length }
            ((a :: t).drop takeN)
            (by
              simp only [List.length_drop, List.length_cons, htkeq]
              simp only [List.length_cons] at hf
              omega)
            (by simpa using hl)
            (by
              right
              refine ⟨by simp only [List.length_append, List.length_singleton]; omega, ?_⟩
              simp only [List.length_take, List.length_cons, htkeq, hmin])
          rw [hrec]
          simp only [htkeq]
          conv_rhs => rw [chunksOf_cons w.row_limit hl (a :: t) (by simp)]
          simp [List.append_assoc]

/-- C5 (corrected): as stated, the claim fails for `1 ≤ row_limit < 5`: with
`row_limit = 4`, writing `2*4 + 5 = 13` records produces 4 files with row counts
4, 4, 4, 1 — not 3 files with counts 4, 4, 5. -/
theorem c5_writer_counterexample :
    (write_df (initWriter "out" ".csv" 4 (known_columns false))
        (List.replicate 13 simpleRec)).files.map (fun f => f.rows.length) = [4, 4, 4, 1] := by
  decide

/-- C5 (amended): for every `row_limit ≥ 5`, writing `2*row_limit + 5` records
through one fresh `PartitionedCSVWriter` produces exactly 3 files with row counts
`row_limit, row_limit, 5`, all carrying the identical configured header; and for
every `row_limit ≥ 1`, any sequence of batches is written with no record lost or
duplicated (the concatenation of all files' rows is exactly the concatenation of the
batches) and no file exceeding `row_limit` data rows. -/
theorem c5_partitioned_writer :
    (∀ (r : Nat) (base ext : String) (cols : List String) (recs : List Record),
      5 ≤ r → recs.length = 2 * r + 5 →
      (write_df (initWriter base ext r cols) recs).files.map (fun f => f.rows.length)
          = [r, r, 5] ∧
      (write_df (initWriter base ext r cols) recs).files.map OutFile.header
          = [cols, cols, cols]) ∧
    (∀ (r : Nat) (base ext : String) (cols : List String) (batches : List (List Record)),
      1 ≤ r →
      joinedRows (batches.foldl write_df (initWriter base ext r cols)) = batches.flatten ∧
      ∀ f ∈ (batches.foldl write_df (initWriter base ext r cols)).files,
        f.rows.length ≤ r) := by
  constructor
  · intro r base ext cols recs hr hlen
    have hr1 : 1 ≤ r := by omega
    have hne : recs ≠ [] := by
      intro h; rw [h] at hlen; simp at hlen
    have hwd : write_df (initWriter base ext r cols) recs
        = writeLoop recs.length (initWriter base ext r cols) recs := by
      unfold write_df; rw [if_neg hne]
    have hfresh := writeLoop_files_fresh recs.length (initWriter base ext r cols) recs
      le_rfl (by simpa [initWriter] using hr1) (Or.inl (by simp [initWriter]))
    rw [hwd, hfresh]
    have hd1 : (recs.drop r).length = r + 5 := by
      simp only [List.length_drop, hlen]; omega
    have hd2 : ((recs.drop r).drop r).length = 5 := by
      simp only [List.length_drop, hlen]; omega
    have hne1 : recs.drop r ≠ [] := by
      intro h; rw [h] at hd1; simp at hd1
    have hne2 : (recs.drop r).drop r ≠ [] := by
      intro h; rw [h] at hd2; simp at hd2
    have hc1 : chunksOf r recs = recs.take r :: chunksOf r (recs.drop r) :=
      chunksOf_cons r hr1 recs hne
    have hc2 : chunksOf r (recs.drop r)
        = (recs.drop r).take r :: chunksOf r ((recs.drop r).drop r) :=
      chunksOf_cons r hr1 _ hne1
    have hc3 : chunksOf r ((recs.drop r).drop r)
        = ((recs.drop r).drop r).take r :: chunksOf r (((recs.drop r).drop r).drop r) :=
      chunksOf_cons r hr1 _ hne2
    have hd3 : ((recs.drop r).drop r).drop r = [] :=
      List.drop_eq_nil_of_le (by rw [hd2]; exact hr)
    have htk3 : ((recs.drop r).drop r).take r = (recs.drop r).drop r :=
      List.take_of_length_le (by rw [hd2]; exact hr)
    have m1 : min r recs.length = r := by rw [hlen]; exact Nat.min_eq_left (by omega)
    have m2 : min r (recs.drop r).length = r := by rw [hd1]; exact Nat.min_eq_left (by omega)
    simp only [initWriter] at hc1 ⊢
    rw [hc1, hc2, hc3, hd3, htk3]
    constructor
    · simp [chunksOf, chunksOfAux, List.length_take, m1, m2, hd2]
      omega
    · simp [chunksOf, chunksOfAux]
  · intro r base ext cols batches hr1
    have main : ∀ (bs : List (List Record)) (w : WriterState), w.row_limit = r → WInv w →
        joinedRows (bs.foldl write_df w) = joinedRows w ++ bs.flatten ∧
        WInv (bs.foldl write_df w) ∧ (bs.foldl write_df w).row_limit = r := by
      intro bs
      induction bs with
      | nil =>
        intro w hwr hi
        simpa using ⟨hi, hwr⟩
      | cons b bt ih =>
        intro w hwr hi
        have hl : 1 ≤ w.row_limit := by rw [hwr]; exact hr1
        obtain ⟨hj, hrl, _⟩ := write_df_join w b hl
        have hi2 := write_df_WInv w b hl hi
        obtain ⟨ihj, ihi, ihr⟩ := ih (write_df w b) (by rw [hrl, hwr]) hi2
        refine ⟨?_, ihi, ihr⟩
        simp only [List.foldl_cons, List.flatten_cons]
        rw [ihj, hj, List.append_assoc]
    obtain ⟨hj, hi, hrl⟩ := main batches (initWriter base ext r cols) rfl
      (WInv_initWriter base ext r cols)
    constructor
    · rw [hj]; simp [joinedRows, initWriter]
    · intro f hf
      have hb := (hi.1 f hf).1
      rw [hrl] at hb
      exact hb

/-- C5 witness: the amended statements at `row_limit = 5` with 15 records, and the
no-loss statement at `row_limit = 1` with two singleton batches. -/
theorem c5_partitioned_writer_witness :
    (write_df (initWriter "out" ".csv" 5 (known_columns false))
        (List.replicate 15 simpleRec)).files.map (fun f => f.rows.length) = [5, 5, 5] ∧
    joinedRows ([[simpleRec], [simpleRec]].foldl write_df (initWriter "o" ".csv" 1 []))
      = [[simpleRec], [simpleRec]].flatten := by
  constructor
  · have := (c5_partitioned_writer.1 5 "out" ".csv" (known_columns false)
      (List.replicate 15 simpleRec) (by omega) (by simp)).1
    simpa using this
  · exact (c5_partitioned_writer.2 1 "o" ".csv" [] [[simpleRec], [simpleRec]] (by omega)).1

theorem avoltChecksumCell_eq (ts : String) (d : Bytes8) :
    avoltChecksumCell ts d
      = some (.b (decide ((d.b7 : Int) = compute_checksum OR_AVOLT d))) := rfl

/-- C2 (confirmed): for every 8-byte cell-broadcast payload, the decoder emits
exactly one record (dispatch never errors on id 0x6B4), `checksum_ok` is true iff
the transmitted byte `d[7]` equals `low_byte(0x6B4 + 8 + sum(payload[0..7]))` (the
sum of payload bytes 0‥6, Python `data[:7]`), and changing any single
checksum-input byte of a payload that validated flips `checksum_ok` to false. -/
theorem c2_checksum_roundtrip (ts : String) (d : Bytes8) (hd : d.inRange) :
    (decode_or_avolt ts OR_AVOLT d false).length = 1 ∧
    decodeFrame ts OR_AVOLT d = .ok (some (decode_or_avolt ts OR_AVOLT d false)) ∧
    (avoltChecksumCell ts d = some (.b true) ↔
      (d.b7 : Int) = (OR_AVOLT + 8
        + ((d.b0 : Int) + d.b1 + d.b2 + d.b3 + d.b4 + d.b5 + d.b6)) % 256) ∧
    (∀ (i : Fin 7) (v : Nat), v < 256 → d.setLow i v ≠ d →
      avoltChecksumCell ts d = some (.b true) →
      avoltChecksumCell ts (d.setLow i v) = some (.b false)) := by
  obtain ⟨hb0, hb1, hb2, hb3, hb4, hb5, hb6, hb7⟩ := hd
  refine ⟨rfl, rfl, ?_, ?_⟩
  · rw [avoltChecksumCell_eq]
    simp [compute_checksum]
  · intro i v hv hne hok
    rw [avoltChecksumCell_eq] at hok
    rw [avoltChecksumCell_eq]
    simp only [Option.some.injEq, Val.b.injEq, decide_eq_true_eq] at hok
    simp only [Option.some.injEq, Val.b.injEq, decide_eq_false_iff_not]
    simp only [compute_checksum, OR_AVOLT, OR_CAN_BASE] at hok
    fin_cases i
    · have hvne : v ≠ d.b0 := by
        intro hh
        exact hne (by subst hh; rfl)
      simp [Bytes8.setLow, compute_checksum, OR_AVOLT, OR_CAN_BASE]
      omega
    · have hvne : v ≠ d.b1 := by
        intro hh
        exact hne (by subst hh; rfl)
      simp [Bytes8.setLow, compute_checksum, OR_AVOLT, OR_CAN_BASE]
      omega
    · have hvne : v ≠ d.b2 := by
        intro hh
        exact hne (by subst hh; rfl)
      simp [Bytes8.setLow, compute_checksum, OR_AVOLT, OR_CAN_BASE]
      omega
    · have hvne : v ≠ d.b3 := by
        intro hh
        exact hne (by subst hh; rfl)
      simp [Bytes8.setLow, compute_checksum, OR_AVOLT, OR_CAN_BASE]
      omega
    · have hvne : v ≠ d.b4 := by
        intro hh
        exact hne (by subst hh; rfl)
      simp [Bytes8.setLow, compute_checksum, OR_AVOLT, OR_CAN_BASE]
      omega
    · have hvne : v ≠ d.b5 := by
        intro hh
        exact hne (by subst hh; rfl)
      simp [Bytes8.setLow, compute_checksum, OR_AVOLT, OR_CAN_BASE]
      omega
    · have hvne : v ≠ d.b6 := by
        intro hh
        exact hne (by subst hh; rfl)
      simp [Bytes8.setLow, compute_checksum, OR_AVOLT, OR_CAN_BASE]
      omega

/-- C2 witness: the all-zero payload with the correctly computed checksum byte 188
(= (0x6B4 + 8) mod 256) validates. -/
theorem c2_checksum_roundtrip_witness :
    (⟨0, 0, 0, 0, 0, 0, 0, 188⟩ : Bytes8).inRange ∧
    avoltChecksumCell "" ⟨0, 0, 0, 0, 0, 0, 0, 188⟩ = some (.b true) := by
  refine ⟨by decide, ?_⟩
  exact ((c2_checksum_roundtrip "" ⟨0, 0, 0, 0, 0, 0, 0, 188⟩ (by decide)).2.2.1).mpr
    (by decide)

/-- C4 (corrected): the battery-protection decoder is *not* total — on a BP_VMAX
frame (id 0x581) whose low 32-bit word is an IEEE-754 NaN, `int(round(f_lo))`
raises `ValueError`, which propagates out of the dispatch. -/
theorem c4_decode_bp_raises :
    decodeFrame "" 0x581 ⟨0x00, 0x00, 0xC0, 0x7F, 0, 0, 0, 0⟩
      = .error "cannot convert float NaN to integer" := by
  rfl

set_option maxHeartbeats 2000000 in
/-- C4 (amended): dispatch-plus-decode returns normally on every 8-byte payload and
every arbitration id, *except* exactly the battery-protection sub-ids BP_VMAX,
BP_VMIN and BP_TMAX (ids 0x581/0x582/0x583) when the payload's low 32-bit word
encodes a NaN or an infinity, where the float→int conversion of the id/cell field
raises. -/
theorem c4_decoder_totality (ts : String) (can_id : Int) (d : Bytes8) :
    (∃ e, decodeFrame ts can_id d = .error e) ↔
      (BP_CAN_BASE ≤ can_id ∧ can_id < BP_CAN_BASE + 0x10 ∧
       (can_id = BP_CAN_BASE + 1 ∨ can_id = BP_CAN_BASE + 2 ∨ can_id = BP_CAN_BASE + 3) ∧
       f32IsFinite (floats_le_lo d) = false) := by
  by_cases hbp : BP_CAN_BASE ≤ can_id ∧ can_id < BP_CAN_BASE + 0x10
  · have hex : DECODERS_EXACT ts can_id d = none := by
      unfold DECODERS_EXACT
      simp only [BP_CAN_BASE] at hbp
      rw [if_neg (by simp only [OR_SVOLT, OR_CAN_BASE]; omega),
          if_neg (by simp only [OR_PACK, OR_CAN_BASE]; omega),
          if_neg (by simp only [OR_STEMP, OR_CAN_BASE]; omega),
          if_neg (by simp only [OR_FLAGS, OR_CAN_BASE]; omega),
          if_neg (by simp only [OR_AVOLT, OR_CAN_BASE]; omega),
          if_neg (by simp only [OR_ATEMP, OR_CAN_BASE]; omega),
          if_neg (by simp only [THERM_GENERAL]; omega),
          if_neg (by simp only [THERM_ADDRCLAIM]; omega),
          if_neg (by simp only [MPPT_CAN_ONOFF, MPPT_CAN_BASE]; omega)]
    unfold decodeFrame
    rw [hex]
    unfold decode_dynamic
    simp only [BP_CAN_BASE] at hbp
    rw [if_neg (by simp only [MC_CAN_BASE1, MC_CAN_BASE2]; omega),
        if_neg (by simp only [DC_CAN_BASE]; omega),
        if_neg (by simp only [STW_CAN_BASE]; omega),
        if_pos (by simp only [BP_CAN_BASE]; omega)]
    obtain ⟨hlo, hhi⟩ := hbp
    interval_cases can_id <;>
      cases hfin : f32IsFinite (floats_le_lo d) <;>
        simp +decide [decode_bp, bpName, pyIntRound, BP_CAN_BASE, hfin, Except.map] <;>
        (try split_ifs) <;> simp
  · have hok : ∃ v, decodeFrame ts can_id d = .ok v := by
      unfold decodeFrame
      cases hD : DECODERS_EXACT ts can_id d with
      | some recs => exact ⟨some recs, rfl⟩
      | none =>
        unfold decode_dynamic
        split_ifs <;>
          first
            | exact absurd (by assumption :
                BP_CAN_BASE ≤ can_id ∧ can_id < BP_CAN_BASE + 0x10) hbp
            | exact ⟨_, rfl⟩
    constructor
    · rintro ⟨e, he⟩
      obtain ⟨v, hv⟩ := hok
      rw [hv] at he
      exact Except.noConfusion he
    · rintro ⟨hb1, hb2, _⟩
      exact absurd ⟨hb1, hb2⟩ hbp

theorem decodeFrame_unknown (ts : String) (c : Int) (d : Bytes8) (h : unknownId c) :
    decodeFrame ts c d = .ok none := by
  obtain ⟨h1, h2, h3, h4, h5, h6, h7, h8, h9, h10, h11, h12, h13, h14, h15⟩ := h
  unfold decodeFrame DECODERS_EXACT decode_dynamic
  rw [if_neg h1, if_neg h2, if_neg h3, if_neg h4, if_neg h5, if_neg h6, if_neg h7,
      if_neg h8, if_neg h9]
  rw [if_neg (not_or.mpr ⟨h10, h11⟩), if_neg h12, if_neg h13, if_neg h14, if_neg h15]

/-- C9 (confirmed): a row whose id parses to an arbitration id outside every known
exact id and family range, and whose data text is valid hex after the
truncate-to-16/pad-with-'0' normalisation, is never dropped: the engine buffers
exactly one record, with `message = "RAW"` and `raw_data` equal to the normalised
(truncated and right-padded) hex text. -/
theorem c9_raw_passthrough (include_bits split : Bool) (header : List String)
    (st : EngineSt) (row : List String) (can_id : Int) (data_b : Bytes8)
    (hid : parse_can_id (pyStrip (cell header row "id")) = some can_id)
    (hunk : unknownId can_id)
    (hdata : bytesFromHex (paddedData (cell header row "data")) = some data_b)
    (hroom : st.buf.length + 1 < FLUSH_EVERY) :
    processRow include_bits split header st row = .ok
      { st with
          buf := st.buf ++ [rawRecord (cell header row "timestamp") can_id
            (paddedData (cell header row "data")) data_b include_bits (chanOf header row)],
          peakBuf := max st.peakBuf (st.buf.length + 1),
          decoded := st.decoded + 1 } ∧
    (rawRecord (cell header row "timestamp") can_id (paddedData (cell header row "data"))
        data_b include_bits (chanOf header row)).message = "RAW" ∧
    (rawRecord (cell header row "timestamp") can_id (paddedData (cell header row "data"))
        data_b include_bits (chanOf header row)).fields.lookup "raw_data"
      = some (.s (paddedData (cell header row "data"))) := by
  have hsid : pyStrip (cell header row "id") ≠ "" := by
    intro hh
    rw [hh] at hid
    rw [show parse_can_id "" = none from rfl] at hid
    exact Option.noConfusion hid
  refine ⟨?_, by cases include_bits <;> rfl, by cases include_bits <;> rfl⟩
  unfold processRow
  rw [if_neg hsid, hid]
  simp only [hdata, decodeFrame_unknown (cell header row "timestamp") can_id data_b hunk]
  have hlen : (st.buf ++ [rawRecord (cell header row "timestamp") can_id
      (paddedData (cell header row "data")) data_b include_bits
      (chanOf header row)]).length = st.buf.length + 1 := by
    simp
  rw [if_neg (by rw [hlen]; omega)]
  simp [hlen]

/-- C9 witness: id text `"123"` (0x123 = 291, outside every known range) with data
`"AABB"` buffers exactly the padded RAW record. -/
theorem c9_raw_passthrough_witness :
    processRow false false ["id", "data"] ⟨none, none, none, [], 0, 0⟩ ["123", "AABB"]
      = .ok { wOne := none, wC0 := none, wC1 := none,
              buf := [rawRecord "" 291 (paddedData "AABB") ⟨0xAA, 0xBB, 0, 0, 0, 0, 0, 0⟩
                false none],
              peakBuf := 1, decoded := 1 } := by
  have h := (c9_raw_passthrough false false ["id", "data"] ⟨none, none, none, [], 0, 0⟩
    ["123", "AABB"] 291 ⟨0xAA, 0xBB, 0, 0, 0, 0, 0, 0⟩ (by decide) (by decide) (by decide)
    (by decide)).1
  simpa using h

/-- C6 (amended): a row with an empty or unparseable id, or whose padded data text
is not valid hex, is skipped — the engine state is completely unchanged and the run
continues with the remaining rows.  (No skip counter exists in the code; see the
counterexample theorem.) -/
theorem c6_row_skipping (include_bits split : Bool) (header : List String)
    (st : EngineSt) (row : List String)
    (h : pyStrip (cell header row "id") = "" ∨
         parse_can_id (pyStrip (cell header row "id")) = none ∨
         bytesFromHex (paddedData (cell header row "data")) = none) :
    processRow include_bits split header st row = .ok st ∧
    ∀ rest, processRows include_bits split header st (row :: rest)
      = processRows include_bits split header st rest := by
  have hmain : processRow include_bits split header st row = .ok st := by
    unfold processRow
    by_cases hs : pyStrip (cell header row "id") = ""
    · rw [if_pos hs]
    · rw [if_neg hs]
      rcases h with h | h | h
      · exact absurd h hs
      · rw [h]
      · cases hp : parse_can_id (pyStrip (cell header row "id")) with
        | none => rfl
        | some c => simp only [h]
  refine ⟨hmain, fun rest => ?_⟩
  rw [processRows, hmain]

/-- C6 witness: the non-hex id `"ZZ"` is skipped with the state unchanged. -/
theorem c6_row_skipping_witness :
    processRow false false ["id", "data"] ⟨none, none, none, [], 0, 0⟩ ["ZZ", "00"]
      = .ok ⟨none, none, none, [], 0, 0⟩ :=
  (c6_row_skipping false false ["id", "data"] ⟨none, none, none, [], 0, 0⟩ ["ZZ", "00"]
    (Or.inr (Or.inl (by decide)))).1

/-- C6 (counterexample to the claim as stated): no skip counter is incremented, and
the skipped-row count is not observable at the end of the run — two inputs that
differ by one skipped (unparseable-id) row produce byte-identical run results. -/
theorem c6_no_skip_counter :
    skippedRowCount c6InputGood = 0 ∧ skippedRowCount c6InputBad = 1 ∧
    c6InputGood ≠ c6InputBad ∧
    decode_csv_one c6InputGood ("out", ".csv") false none EXCEL_XLSX_MAX_ROWS false
      = decode_csv_one c6InputBad ("out", ".csv") false none EXCEL_XLSX_MAX_ROWS false := by
  exact ⟨by decide, by decide, by decide, rfl⟩

theorem runChunks_missing_cols (include_bits split : Bool) (channel : Option String)
    (header : List String) (total_rows : Nat) (hasCb : Bool)
    (h : ¬(hasCol header "id" = true ∧ hasCol header "data" = true)) :
    ∀ (chunks : List (List (List String))) (st : EngineSt) (rp : Nat)
      (prog : List (ℚ × String)),
      ∃ rp2, runChunks include_bits split channel header total_rows hasCb
        (st, rp, prog) chunks = .ok (st, rp2, prog) := by
  intro chunks
  induction chunks with
  | nil => intro st rp prog; exact ⟨rp, rfl⟩
  | cons c rest ih =>
    intro st rp prog
    obtain ⟨rp2, hih⟩ := ih st (rp + (chunkFilter channel header c).length) prog
    refine ⟨rp2, ?_⟩
    rw [runChunks, if_neg (by simpa using h)]
    exact hih

/-- C3 (amended): when the input header lacks the `id` column or the `data` column,
the streaming entry point does *not* refuse to start — every chunk is skipped and
the run completes normally, returning no output paths, writing no file, decoding
nothing, and reporting only the start/complete progress events. -/
theorem c3_missing_columns (input : CsvInput) (include_bits : Bool)
    (channel : Option String) (p : String × String) (row_limit : Nat) (hasCb : Bool)
    (h : hasCol input.header "id" = false ∨ hasCol input.header "data" = false) :
    decode_csv_one input p include_bits channel row_limit hasCb = .ok
      { outputs := [],
        wOne := some (initWriter p.1 p.2 row_limit (known_columns include_bits)),
        wC0 := none, wC1 := none,
        progress := if hasCb then
          [((0 : ℚ), "Starting decode"), ((1 : ℚ), "Decoding complete")] else [],
        peakBuf := 0, decoded := 0 } := by
  have h' : ¬(hasCol input.header "id" = true ∧ hasCol input.header "data" = true) := by
    rcases h with h | h <;> simp [h]
  obtain ⟨rp2, hrc⟩ := runChunks_missing_cols include_bits false channel input.header
    (if hasCb then input.rows.length else 0) hasCb h' (chunksOf CHUNK_ROWS input.rows)
    ⟨some (initWriter p.1 p.2 row_limit (known_columns include_bits)), none, none, [], 0, 0⟩
    0 (if hasCb then [((0 : ℚ), "Starting decode")] else [])
  unfold decode_csv_one streamDecode
  simp only [if_neg (Bool.false_ne_true ∘ id)]
  rw [hrc]
  cases hasCb <;> simp [writerPaths, initWriter]

/-- C3 (counterexample to the claim as stated): on an input whose header lacks the
`id` column, `decode_csv_one` does not fail before opening an output — it completes
successfully (`.ok`), with no output path returned and no file created. -/
theorem c3_completes_without_error :
    (decode_csv_one c3Input ("out", ".csv") false none EXCEL_XLSX_MAX_ROWS
        false).toOption.map
      (fun r => (r.outputs, r.wOne.elim 0 (fun w => w.files.length))) = some ([], 0) := by
  decide

/-- C3 witness: the amended statement evaluated on the concrete header
`["data", "timestamp"]`. -/
theorem c3_missing_columns_witness :
    decode_csv_one c3Input ("out", ".csv") false none EXCEL_XLSX_MAX_ROWS false = .ok
      { outputs := [],
        wOne := some (initWriter "out" ".csv" EXCEL_XLSX_MAX_ROWS (known_columns false)),
        wC0 := none, wC1 := none, progress := [], peakBuf := 0, decoded := 0 } := by
  have h := c3_missing_columns c3Input false none ("out", ".csv") EXCEL_XLSX_MAX_ROWS false
    (Or.inl (by decide))
  simpa using h

/-- C10 (confirmed): the thermistor address-claim decoder emits the message name
`"THERM_ADDR_CLAIM"`, which is *not* in the battery-bus routing set (that set spells
it `"THERM_ADDRCLAIM"`); consequently, in split mode without a per-row channel
column, an address-claim frame's record is routed to the first (vehicle/can0)
stream, not the battery (can1) stream. -/
theorem c10_therm_addrclaim_routing :
    (∀ (ts : String) (d : Bytes8),
      (decode_therm_addrclaim ts THERM_ADDRCLAIM d).map Record.message
        = ["THERM_ADDR_CLAIM"]) ∧
    can1_msgs.contains "THERM_ADDR_CLAIM" = false ∧
    Except.map (fun r => (streamTotal r.wC0, streamTotal r.wC1, r.decoded))
      (decode_csv_split c10Input ("vehicle", ".csv") ("battery", ".csv") false none
        EXCEL_XLSX_MAX_ROWS false) = .ok (1, 0, 1) := by
  exact ⟨fun ts d => rfl, by decide, rfl⟩

theorem decode_bp_record_bound (ts : String) (c : Int) (d : Bytes8)
    (rs : List Record) (h : decode_bp ts c d = .ok rs) : rs.length = 1 := by
  simp only [decode_bp] at h
  cases hpi : pyIntRound (floats_le_lo d) with
  | error e =>
    rw [hpi] at h
    split_ifs at h <;>
      first
        | (injection h with h2; rw [← h2]; rfl)
        | (simp only [Except.map] at h; exact Except.noConfusion h)
        | (simp only [Except.map] at h; injection h with h2; rw [← h2]; rfl)
  | ok n =>
    rw [hpi] at h
    split_ifs at h <;>
      first
        | (injection h with h2; rw [← h2]; rfl)
        | (simp only [Except.map] at h; exact Except.noConfusion h)
        | (simp only [Except.map] at h; injection h with h2; rw [← h2]; rfl)

set_option maxHeartbeats 1000000 in
theorem decodeFrame_record_bound (ts : String) (c : Int) (d : Bytes8)
    (rs : List Record) (h : decodeFrame ts c d = .ok (some rs)) :
    1 ≤ rs.length ∧ rs.length ≤ 4 := by
  unfold decodeFrame DECODERS_EXACT decode_dynamic at h
  split_ifs at h <;> simp only [Except.ok.injEq, Option.some.injEq] at h
  all_goals try subst h
  all_goals try
    (constructor <;>
      simp [decode_or_svolt, decode_or_pack, decode_or_stemp, decode_or_flags,
        decode_or_avolt, decode_or_atemp, decode_therm_general, decode_therm_addrclaim,
        decode_mppt, decode_mc, decode_dc, decode_stw, atempRec] <;>
      split_ifs <;> simp)
  all_goals try (exact Option.noConfusion h)
  all_goals
    cases hbp : decode_bp ts c d with
    | error e => rw [hbp] at h; simp [Except.map] at h
    | ok L =>
      rw [hbp] at h
      simp [Except.map] at h
      subst h
      have hb := decode_bp_record_bound ts c d L hbp
      omega

theorem flush_obs (split : Bool) (st : EngineSt) :
    (flush split st).buf = [] ∧ (flush split st).peakBuf = st.peakBuf ∧
    (flush split st).decoded = st.decoded := by
  unfold flush
  split_ifs <;> simp_all

theorem flush_of_empty (split : Bool) (st : EngineSt) (h : st.buf = []) :
    flush split st = st := by
  unfold flush
  rw [if_pos h]

theorem processRow_spec (include_bits split : Bool) (hdr : List String) (st : EngineSt)
    (row : List String) (st' : EngineSt)
    (h : processRow include_bits split hdr st row = .ok st') :
    st' = st ∨ ∃ recs : List Record, 1 ≤ recs.length ∧ recs.length ≤ 4 ∧
      (∀ r ∈ recs, r.channel = chanOf hdr row) ∧
      st' = (if FLUSH_EVERY ≤ (st.buf ++ recs).length then
               flush split
                 { st with
                     buf := st.buf ++ recs,
                     peakBuf := max st.peakBuf (st.buf ++ recs).length,
                     decoded := st.decoded + recs.length }
             else
               { st with
                   buf := st.buf ++ recs,
                   peakBuf := max st.peakBuf (st.buf ++ recs).length,
                   decoded := st.decoded + recs.length }) := by
  simp only [processRow] at h
  split at h
  · left; injection h with h2; exact h2.symm
  · split at h
    · left; injection h with h2; exact h2.symm
    · rename_i can_id _
      split at h
      · left; injection h with h2; exact h2.symm
      · rename_i data_b _
        split at h
        · exact Except.noConfusion h
        · rename_i orecs hdec
          right
          injection h with h2
          cases orecs with
          | none =>
            refine ⟨[rawRecord (cell hdr row "timestamp") can_id
                (paddedData (cell hdr row "data")) data_b include_bits (chanOf hdr row)],
              by simp, by simp, ?_, h2.symm⟩
            intro r hr
            simp at hr
            subst hr
            rfl
          | some rs =>
            refine ⟨rs.map (addExtras include_bits data_b (chanOf hdr row)),
              ?_, ?_, ?_, h2.symm⟩
            · simpa using (decodeFrame_record_bound _ _ _ rs hdec).1
            · simpa using (decodeFrame_record_bound _ _ _ rs hdec).2
            · intro r hr
              simp only [List.mem_map] at hr
              obtain ⟨r0, _, hr0⟩ := hr
              subst hr0
              rfl

theorem FLUSH_EVERY_pos : 0 < FLUSH_EVERY := by decide

theorem flush_BufBound (split : Bool) (st : EngineSt)
    (hpk : st.peakBuf ≤ FLUSH_EVERY + 3) : BufBound (flush split st) := by
  obtain ⟨h1, h2, _⟩ := flush_obs split st
  refine ⟨?_, ?_⟩
  · rw [h1]; exact FLUSH_EVERY_pos
  · rw [h2]; exact hpk

theorem processRow_BufBound (include_bits split : Bool) (hdr : List String)
    (st st' : EngineSt) (row : List String)
    (h : processRow include_bits split hdr st row = .ok st') (hb : BufBound st) :
    BufBound st' := by
  rcases processRow_spec include_bits split hdr st row st' h with rfl | ⟨recs, h1, h4, _, rfl⟩
  · exact hb
  · obtain ⟨hb1, hb2⟩ := hb
    by_cases hf : FLUSH_EVERY ≤ (st.buf ++ recs).length
    · rw [if_pos hf]
      refine flush_BufBound split _ ?_
      simp only [List.length_append]
      exact max_le hb2 (by omega)
    · rw [if_neg hf]
      refine ⟨?_, ?_⟩
      · simp only [List.length_append] at hf ⊢
        omega
      · simp only [List.length_append]
        exact max_le hb2 (by simp only [List.length_append] at hf; omega)

theorem processRows_BufBound (include_bits split : Bool) (hdr : List String) :
    ∀ (rows : List (List String)) (st st' : EngineSt),
      processRows include_bits split hdr st rows = .ok st' → BufBound st → BufBound st' := by
  intro rows
  induction rows with
  | nil =>
    intro st st' h hb
    injection h with h2
    rw [← h2]
    exact hb
  | cons row rest ih =>
    intro st st' h hb
    rw [processRows] at h
    cases hr : processRow include_bits split hdr st row with
    | error e => rw [hr] at h; exact Except.noConfusion h
    | ok st1 =>
      rw [hr] at h
      exact ih st1 st' h (processRow_BufBound include_bits split hdr st st1 row hr hb)

theorem runChunks_BufBound (include_bits split : Bool) (channel : Option String)
    (hdr : List String) (total_rows : Nat) (hasCb : Bool) :
    ∀ (chunks : List (List (List String))) (st : EngineSt) (rp : Nat)
      (prog : List (ℚ × String)) (out : EngineSt × Nat × List (ℚ × String)),
      runChunks include_bits split channel hdr total_rows hasCb (st, rp, prog) chunks
        = .ok out → BufBound st → BufBound out.1 := by
  intro chunks
  induction chunks with
  | nil =>
    intro st rp prog out h hb
    injection h with h2
    rw [← h2]
    exact hb
  | cons c rest ih =>
    intro st rp prog out h hb
    rw [runChunks] at h
    split at h
    · cases hr : processRows include_bits split hdr st (chunkFilter channel hdr c) with
      | error e => rw [hr] at h; exact Except.noConfusion h
      | ok st1 =>
        rw [hr] at h
        refine ih _ _ _ _ h ?_
        exact flush_BufBound split st1
          (processRows_BufBound include_bits split hdr _ st st1 hr hb).2
    · exact ih _ _ _ _ h hb

theorem streamDecode_ok_peak (input : CsvInput) (ib : Bool) (ch : Option String)
    (split : Bool) (o1 oc1 oc2 : Option (String × String)) (rl : Nat) (cb : Bool)
    (res : RunResult) (h : streamDecode input ib ch split o1 oc1 oc2 rl cb = .ok res) :
    res.peakBuf ≤ FLUSH_EVERY + 3 := by
  unfold streamDecode at h
  cases cb <;> cases split <;> cases o1 <;> cases oc1 <;> cases oc2 <;>
    simp only [Bool.false_eq_true, if_true, if_false, ite_true, ite_false] at h <;>
    first
      | exact Except.noConfusion h
      | (split at h <;>
          first
            | exact Except.noConfusion h
            | (rename_i st x prog heq
               injection h with h2
               rw [← h2]
               exact (runChunks_BufBound _ _ _ _ _ _ _ _ _ _ (st, x, prog) heq
                 ⟨FLUSH_EVERY_pos, Nat.zero_le _⟩).2))

/-- C7 (amended): across every streaming run, the number of records held in the
engine's buffer, observed at the flush-threshold check, never exceeds
`FLUSH_EVERY + 3` (the threshold minus one plus the at-most-4 records one frame can
produce); whenever the check sees the buffer at or above the threshold it is flushed
and cleared. -/
theorem c7_buffer_bound (input : CsvInput) (include_bits : Bool)
    (channel : Option String) (split : Bool) (o1 oc1 oc2 : Option (String × String))
    (row_limit : Nat) (hasCb : Bool) :
    (streamDecode input include_bits channel split o1 oc1 oc2 row_limit
        hasCb).toOption.elim True
      (fun res => res.peakBuf ≤ FLUSH_EVERY + 3) := by
  cases hres : streamDecode input include_bits channel split o1 oc1 oc2 row_limit hasCb with
  | error e => simp [Except.toOption]
  | ok res =>
    simp only [Except.toOption, Option.elim]
    exact streamDecode_ok_peak input include_bits channel split o1 oc1 oc2 row_limit
      hasCb res hres

theorem c7AtempRecs_len : c7AtempRecs.length = 4 := rfl

theorem c7_first_row (w0 w1 : Option WriterState) :
    processRow false true ["id", "data"] ⟨none, w0, w1, [], 0, 0⟩ ["6B0", "00"]
      = .ok ⟨none, w0, w1,
          (decode_or_svolt "" 1712 ⟨0, 0, 0, 0, 0, 0, 0, 0⟩).map
            (addExtras false ⟨0, 0, 0, 0, 0, 0, 0, 0⟩ none), 1, 1⟩ := rfl

theorem c7_atemp_step (st : EngineSt) :
    processRow false true ["id", "data"] st c7AtempRow
      = .ok (if FLUSH_EVERY ≤ (st.buf ++ c7AtempRecs).length then
               flush true
                 { st with
                     buf := st.buf ++ c7AtempRecs,
                     peakBuf := max st.peakBuf (st.buf ++ c7AtempRecs).length,
                     decoded := st.decoded + 4 }
             else
               { st with
                   buf := st.buf ++ c7AtempRecs,
                   peakBuf := max st.peakBuf (st.buf ++ c7AtempRecs).length,
                   decoded := st.decoded + 4 }) := rfl

theorem c7_atemp_run (k : Nat) :
    ∀ st : EngineSt, st.peakBuf = st.buf.length →
      st.buf.length + 4 * k < FLUSH_EVERY →
      processRows false true ["id", "data"] st (List.replicate k c7AtempRow)
        = .ok { st with
                  buf := st.buf ++ (List.replicate k c7AtempRecs).flatten,
                  peakBuf := st.buf.length + 4 * k,
                  decoded := st.decoded + 4 * k } := by
  induction k with
  | zero =>
    intro st h1 h2
    cases st
    simp [processRows]
    exact h1
  | succ k ih =>
    intro st h1 h2
    have hlen : (st.buf ++ c7AtempRecs).length = st.buf.length + 4 := by
      simp [List.length_append, c7AtempRecs_len]
    have hmax : max st.peakBuf (st.buf ++ c7AtempRecs).length
        = (st.buf ++ c7AtempRecs).length := by
      rw [hlen, h1]
      exact Nat.max_eq_right (by omega)
    rw [List.replicate_succ, processRows, c7_atemp_step st,
      if_neg (show ¬ FLUSH_EVERY ≤ (st.buf ++ c7AtempRecs).length by rw [hlen]; omega),
      hmax]
    show processRows false true ["id", "data"]
        ⟨st.wOne, st.wC0, st.wC1, st.buf ++ c7AtempRecs,
          (st.buf ++ c7AtempRecs).length, st.decoded + 4⟩
        (List.replicate k c7AtempRow) = _
    rw [ih ⟨st.wOne, st.wC0, st.wC1, st.buf ++ c7AtempRecs,
          (st.buf ++ c7AtempRecs).length, st.decoded + 4⟩ rfl
        (by simp only [hlen]; omega)]
    simp only [Except.ok.injEq, EngineSt.mk.injEq, List.replicate_succ, List.flatten_cons,
      List.append_assoc, hlen, true_and]
    refine ⟨?_, ?_⟩ <;> omega

theorem processRows_append (include_bits split : Bool) (hdr : List String) :
    ∀ (l1 l2 : List (List String)) (st : EngineSt),
      processRows include_bits split hdr st (l1 ++ l2)
        = match processRows include_bits split hdr st l1 with
          | .error e => .error e
          | .ok st1 => processRows include_bits split hdr st1 l2 := by
  intro l1
  induction l1 with
  | nil => intro l2 st; rfl
  | cons r t ih =>
    intro l2 st
    rw [List.cons_append, processRows, processRows]
    cases processRow include_bits split hdr st r with
    | error e => rfl
    | ok st1 => exact ih l2 st1

theorem flatten_replicate_length {α : Type} (k : Nat) (l : List α) :
    ((List.replicate k l).flatten).length = k * l.length := by
  induction k with
  | zero => simp
  | succ k ih =>
    rw [List.replicate_succ, List.flatten_cons, List.length_append, ih]
    ring

theorem c7_run_rows (w0 w1 : Option WriterState) :
    ∃ st3 : EngineSt,
      processRows false true ["id", "data"] ⟨none, w0, w1, [], 0, 0⟩ c7Input.rows
          = .ok st3 ∧
      st3.peakBuf = 10001 ∧ st3.buf = [] := by
  have hsv : ((decode_or_svolt "" 1712 ⟨0, 0, 0, 0, 0, 0, 0, 0⟩).map (addExtras false ⟨0, 0, 0, 0, 0, 0, 0, 0⟩ none)).length = 1 := rfl
  have hflen : ((List.replicate 2499 c7AtempRecs).flatten).length = 2499 * 4 := by
    rw [flatten_replicate_length, c7AtempRecs_len]
  have hrep : c7Input.rows
      = ["6B0", "00"] :: (List.replicate 2499 c7AtempRow ++ [c7AtempRow]) := by
    show ["6B0", "00"] :: List.replicate 2500 c7AtempRow = _
    have h2500 : (2500 : Nat) = 2499 + 1 := by norm_num
    rw [h2500, List.replicate_succ']
  have step1 : processRows false true ["id", "data"] ⟨none, w0, w1, [], 0, 0⟩ c7Input.rows
      = processRows false true ["id", "data"] ⟨none, w0, w1, ((decode_or_svolt "" 1712 ⟨0, 0, 0, 0, 0, 0, 0, 0⟩).map (addExtras false ⟨0, 0, 0, 0, 0, 0, 0, 0⟩ none)), 1, 1⟩
          (List.replicate 2499 c7AtempRow ++ [c7AtempRow]) := by
    rw [hrep, processRows, c7_first_row w0 w1]
  have step2 : processRows false true ["id", "data"] ⟨none, w0, w1, ((decode_or_svolt "" 1712 ⟨0, 0, 0, 0, 0, 0, 0, 0⟩).map (addExtras false ⟨0, 0, 0, 0, 0, 0, 0, 0⟩ none)), 1, 1⟩
        (List.replicate 2499 c7AtempRow ++ [c7AtempRow])
      = processRows false true ["id", "data"] (⟨none, w0, w1, ((decode_or_svolt "" 1712 ⟨0, 0, 0, 0, 0, 0, 0, 0⟩).map (addExtras false ⟨0, 0, 0, 0, 0, 0, 0, 0⟩ none)) ++ (List.replicate 2499 c7AtempRecs).flatten, 1 + 4 * 2499, 1 + 4 * 2499⟩ : EngineSt) [c7AtempRow] := by
    rw [processRows_append,
      c7_atemp_run 2499 ⟨none, w0, w1, ((decode_or_svolt "" 1712 ⟨0, 0, 0, 0, 0, 0, 0, 0⟩).map (addExtras false ⟨0, 0, 0, 0, 0, 0, 0, 0⟩ none)), 1, 1⟩ rfl
        (by
          show ((decode_or_svolt "" 1712 ⟨0, 0, 0, 0, 0, 0, 0, 0⟩).map (addExtras false ⟨0, 0, 0, 0, 0, 0, 0, 0⟩ none)).length + 4 * 2499 < FLUSH_EVERY
          rw [hsv]
          decide)]
    rfl
  have hcond : FLUSH_EVERY ≤ ((⟨none, w0, w1, ((decode_or_svolt "" 1712 ⟨0, 0, 0, 0, 0, 0, 0, 0⟩).map (addExtras false ⟨0, 0, 0, 0, 0, 0, 0, 0⟩ none)) ++ (List.replicate 2499 c7AtempRecs).flatten, 1 + 4 * 2499, 1 + 4 * 2499⟩ : EngineSt).buf ++ c7AtempRecs).length := by
    show FLUSH_EVERY ≤ ((((decode_or_svolt "" 1712 ⟨0, 0, 0, 0, 0, 0, 0, 0⟩).map (addExtras false ⟨0, 0, 0, 0, 0, 0, 0, 0⟩ none)) ++ (List.replicate 2499 c7AtempRecs).flatten) ++ c7AtempRecs).length
    simp only [List.length_append, hsv, hflen, c7AtempRecs_len]
    decide
  have step3 : processRows false true ["id", "data"] (⟨none, w0, w1, ((decode_or_svolt "" 1712 ⟨0, 0, 0, 0, 0, 0, 0, 0⟩).map (addExtras false ⟨0, 0, 0, 0, 0, 0, 0, 0⟩ none)) ++ (List.replicate 2499 c7AtempRecs).flatten, 1 + 4 * 2499, 1 + 4 * 2499⟩ : EngineSt) [c7AtempRow]
      = .ok (flush true
          ⟨none, w0, w1, (((decode_or_svolt "" 1712 ⟨0, 0, 0, 0, 0, 0, 0, 0⟩).map (addExtras false ⟨0, 0, 0, 0, 0, 0, 0, 0⟩ none)) ++ (List.replicate 2499 c7AtempRecs).flatten) ++ c7AtempRecs,
            max (1 + 4 * 2499) ((((decode_or_svolt "" 1712 ⟨0, 0, 0, 0, 0, 0, 0, 0⟩).map (addExtras false ⟨0, 0, 0, 0, 0, 0, 0, 0⟩ none)) ++ (List.replicate 2499 c7AtempRecs).flatten) ++ c7AtempRecs).length,
            (1 + 4 * 2499) + 4⟩) := by
    rw [processRows, c7_atemp_step, if_pos hcond]
    rfl
  refine ⟨_, (step1.trans step2).trans step3, ?_, ?_⟩
  · rw [(flush_obs _ _).2.1]
    show max (1 + 4 * 2499) ((((decode_or_svolt "" 1712 ⟨0, 0, 0, 0, 0, 0, 0, 0⟩).map (addExtras false ⟨0, 0, 0, 0, 0, 0, 0, 0⟩ none)) ++ (List.replicate 2499 c7AtempRecs).flatten) ++ c7AtempRecs).length = 10001
    simp only [List.length_append, hsv, hflen, c7AtempRecs_len]
    omega
  · exact (flush_obs _ _).1

theorem runChunks_single (include_bits split : Bool) (channel : Option String)
    (header : List String) (tr : Nat) (st : EngineSt) (rp : Nat)
    (prog : List (ℚ × String)) (chunk : List (List String)) (st1 : EngineSt)
    (hcols : hasCol header "id" ∧ hasCol header "data")
    (h : processRows include_bits split header st (chunkFilter channel header chunk)
      = .ok st1) :
    runChunks include_bits split channel header tr false (st, rp, prog) [chunk]
      = .ok (flush split st1, rp + (chunkFilter channel header chunk).length, prog) := by
  simp only [runChunks]
  rw [if_pos hcols, h]
  rfl

theorem c7_chunks_single : chunksOf CHUNK_ROWS c7Input.rows = [c7Input.rows] := by
  have hlen : c7Input.rows.length = 2501 := by
    show (["6B0", "00"] :: List.replicate 2500 c7AtempRow).length = 2501
    rw [List.length_cons, List.length_replicate]
  rw [chunksOf_cons CHUNK_ROWS (by decide) _ (by
    intro hnil
    rw [hnil] at hlen
    exact absurd hlen (by decide))]
  rw [List.take_of_length_le (by rw [hlen]; decide),
    List.drop_eq_nil_of_le (by rw [hlen]; decide)]
  rfl

/-- C7 counterexample: on a split run over a 2501-row input (one CAN frame decoding
to a single record followed by 2500 frames decoding to four records each) the
in-memory buffer transiently grows to 10001 records before the threshold flush,
exceeding `FLUSH_EVERY = 10000`; the claim's bound `peak ≤ FLUSH_EVERY` is false. -/
theorem c7_peak_counterexample :
    Except.map RunResult.peakBuf
        (decode_csv_split c7Input ("vehicle", ".csv") ("battery", ".csv") false none
          EXCEL_XLSX_MAX_ROWS false) = .ok 10001 ∧
    FLUSH_EVERY < 10001 := by
  refine ⟨?_, by decide⟩
  obtain ⟨st3, hrun, hpk, hbuf⟩ := c7_run_rows
    (some (initWriter "vehicle" ".csv" EXCEL_XLSX_MAX_ROWS (known_columns false)))
    (some (initWriter "battery" ".csv" EXCEL_XLSX_MAX_ROWS (known_columns false)))
  have hrun2 : processRows false true c7Input.header
      ⟨none, some (initWriter "vehicle" ".csv" EXCEL_XLSX_MAX_ROWS (known_columns false)),
        some (initWriter "battery" ".csv" EXCEL_XLSX_MAX_ROWS (known_columns false)),
        [], 0, 0⟩
      (chunkFilter none c7Input.header c7Input.rows) = .ok st3 := hrun
  have hrc : runChunks false true none c7Input.header 0 false
      (⟨none, some (initWriter "vehicle" ".csv" EXCEL_XLSX_MAX_ROWS (known_columns false)),
         some (initWriter "battery" ".csv" EXCEL_XLSX_MAX_ROWS (known_columns false)),
         [], 0, 0⟩, 0, []) [c7Input.rows]
      = .ok (flush true st3, 0 + (chunkFilter none c7Input.header c7Input.rows).length,
          []) :=
    runChunks_single false true none c7Input.header 0 _ 0 [] c7Input.rows st3
      (by constructor <;> decide) hrun2
  simp only [decode_csv_split, streamDecode, if_true, Bool.false_eq_true, if_false]
  rw [c7_chunks_single, hrc]
  simp only [Except.map]
  rw [(flush_obs true st3).2.1, hpk]

theorem length_filter_partition {α : Type} (p q : α → Bool) (l : List α)
    (hq : ∀ a, q a = !p a) :
    (l.filter p).length + (l.filter q).length = l.length := by
  induction l with
  | nil => rfl
  | cons a t ih =>
    rw [List.filter_cons, List.filter_cons, hq a]
    cases hpa : p a <;> simp <;> omega

theorem length_filter_three {α : Type} (p q r : α → Bool) (l : List α)
    (hpq : ∀ a, p a = true → q a = false)
    (hr : ∀ a, r a = (!p a && !q a)) :
    (l.filter p).length + (l.filter q).length + (l.filter r).length = l.length := by
  induction l with
  | nil => rfl
  | cons a t ih =>
    rw [List.filter_cons, List.filter_cons, List.filter_cons, hr a]
    cases hpa : p a
    · cases hqa : q a <;> simp <;> omega
    · have hq0 : q a = false := hpq a hpa
      rw [hq0]
      simp
      omega

theorem flush_split_totals_fallback (st : EngineSt) (rl : Nat)
    (hnc : NoChanBuf st) (hs : SplitAcct rl st) (hrl : 1 ≤ rl) :
    SplitAcct rl (flush true st) ∧ NoChanBuf (flush true st) ∧
    (flush true st).buf = [] := by
  by_cases hb : st.buf = []
  · rw [flush_of_empty _ _ hb]
    exact ⟨hs, hnc, hb⟩
  · have hchan : st.buf.any (fun r => r.channel.isSome) = false := by
      rw [List.any_eq_false]
      intro r hr
      rw [hnc r hr]
      simp
    obtain ⟨⟨w0, hw0, hw0rl, hw0inv⟩, ⟨w1, hw1, hw1rl, hw1inv⟩, htot⟩ := hs
    have hl0 : 1 ≤ w0.row_limit := by rw [hw0rl]; exact hrl
    have hl1 : 1 ≤ w1.row_limit := by rw [hw1rl]; exact hrl
    have hfl : flush true st = { st with
        wC0 := st.wC0.map (fun w => write_df w
          (st.buf.filter (fun r => !can1_msgs.contains r.message))),
        wC1 := st.wC1.map (fun w => write_df w
          (st.buf.filter (fun r => can1_msgs.contains r.message))),
        buf := [] } := by
      simp [flush, hb, hchan]
    rw [hfl]
    refine ⟨⟨⟨write_df w0 (st.buf.filter (fun r => !can1_msgs.contains r.message)),
        ?_, ?_, ?_⟩,
      ⟨write_df w1 (st.buf.filter (fun r => can1_msgs.contains r.message)),
        ?_, ?_, ?_⟩, ?_⟩, ?_, ?_⟩
    · show st.wC0.map (fun w => write_df w
          (st.buf.filter (fun r => !can1_msgs.contains r.message)))
        = some (write_df w0 (st.buf.filter (fun r => !can1_msgs.contains r.message)))
      rw [hw0]
      rfl
    · rw [(write_df_join w0 (st.buf.filter (fun r => !can1_msgs.contains r.message))
        hl0).2.1]
      exact hw0rl
    · exact write_df_WInv w0 _ hl0 hw0inv
    · show st.wC1.map (fun w => write_df w
          (st.buf.filter (fun r => can1_msgs.contains r.message)))
        = some (write_df w1 (st.buf.filter (fun r => can1_msgs.contains r.message)))
      rw [hw1]
      rfl
    · rw [(write_df_join w1 (st.buf.filter (fun r => can1_msgs.contains r.message))
        hl1).2.1]
      exact hw1rl
    · exact write_df_WInv w1 _ hl1 hw1inv
    · show streamTotal (st.wC0.map (fun w => write_df w
          (st.buf.filter (fun r => !can1_msgs.contains r.message))))
        + streamTotal (st.wC1.map (fun w => write_df w
          (st.buf.filter (fun r => can1_msgs.contains r.message))))
        + ([] : List Record).length = st.decoded
      rw [hw0, hw1]
      have e0 : streamTotal ((some w0).map (fun w => write_df w
          (st.buf.filter (fun r => !can1_msgs.contains r.message))))
          = totalFileRows w0
            + (st.buf.filter (fun r => !can1_msgs.contains r.message)).length := by
        show totalFileRows (write_df w0 _) = _
        exact write_df_total w0 _ hl0
      have e1 : streamTotal ((some w1).map (fun w => write_df w
          (st.buf.filter (fun r => can1_msgs.contains r.message))))
          = totalFileRows w1
            + (st.buf.filter (fun r => can1_msgs.contains r.message)).length := by
        show totalFileRows (write_df w1 _) = _
        exact write_df_total w1 _ hl1
      have epart := length_filter_partition (fun r => can1_msgs.contains r.message)
        (fun r => !can1_msgs.contains r.message) st.buf (fun a => rfl)
      have ht0 : streamTotal (some w0) = totalFileRows w0 := rfl
      have ht1 : streamTotal (some w1) = totalFileRows w1 := rfl
      rw [e0, e1]
      rw [hw0, hw1, ht0, ht1] at htot
      simp only [List.length_nil]
      omega
    · intro r hr
      exact absurd hr (by simp)
    · rfl

theorem processRow_SplitAcct (include_bits : Bool) (hdr : List String)
    (st st' : EngineSt) (row : List String) (rl : Nat) (hrl : 1 ≤ rl)
    (hh : hasCol hdr "channel" = false)
    (h : processRow include_bits true hdr st row = .ok st')
    (hnc : NoChanBuf st) (hs : SplitAcct rl st) :
    SplitAcct rl st' ∧ NoChanBuf st' := by
  rcases processRow_spec include_bits true hdr st row st' h with rfl | ⟨recs, _, _, hch, rfl⟩
  · exact ⟨hs, hnc⟩
  · have hchan : chanOf hdr row = none := by simp [chanOf, hh]
    have hnc2 : NoChanBuf
        { st with
            buf := st.buf ++ recs,
            peakBuf := max st.peakBuf (st.buf ++ recs).length,
            decoded := st.decoded + recs.length } := by
      intro r hr
      have hr2 : r ∈ st.buf ++ recs := hr
      rcases List.mem_append.mp hr2 with h1 | h2
      · exact hnc r h1
      · rw [hch r h2, hchan]
    have hs2 : SplitAcct rl
        { st with
            buf := st.buf ++ recs,
            peakBuf := max st.peakBuf (st.buf ++ recs).length,
            decoded := st.decoded + recs.length } := by
      obtain ⟨hw0, hw1, htot⟩ := hs
      refine ⟨hw0, hw1, ?_⟩
      show streamTotal st.wC0 + streamTotal st.wC1 + (st.buf ++ recs).length
        = st.decoded + recs.length
      simp only [List.length_append]
      omega
    by_cases hf : FLUSH_EVERY ≤ (st.buf ++ recs).length
    · rw [if_pos hf]
      have hres := flush_split_totals_fallback _ rl hnc2 hs2 hrl
      exact ⟨hres.1, hres.2.1⟩
    · rw [if_neg hf]
      exact ⟨hs2, hnc2⟩

theorem processRows_SplitAcct (include_bits : Bool) (hdr : List String) (rl : Nat)
    (hrl : 1 ≤ rl) (hh : hasCol hdr "channel" = false) :
    ∀ (rows : List (List String)) (st st' : EngineSt),
      processRows include_bits true hdr st rows = .ok st' →
      NoChanBuf st → SplitAcct rl st → SplitAcct rl st' ∧ NoChanBuf st' := by
  intro rows
  induction rows with
  | nil =>
    intro st st' h hnc hs
    injection h with h2
    rw [← h2]
    exact ⟨hs, hnc⟩
  | cons r t ih =>
    intro st st' h hnc hs
    cases hpr : processRow include_bits true hdr st r with
    | error e =>
      simp only [processRows, hpr] at h
      exact Except.noConfusion h
    | ok st1 =>
      simp only [processRows, hpr] at h
      obtain ⟨hs1, hnc1⟩ :=
        processRow_SplitAcct include_bits hdr st st1 r rl hrl hh hpr hnc hs
      exact ih st1 st' h hnc1 hs1

theorem runChunks_SplitAcct (include_bits : Bool) (channel : Option String)
    (hdr : List String) (tr : Nat) (cb : Bool) (rl : Nat) (hrl : 1 ≤ rl)
    (hh : hasCol hdr "channel" = false) :
    ∀ (chunks : List (List (List String)))
      (acc out : EngineSt × Nat × List (ℚ × String)),
      runChunks include_bits true channel hdr tr cb acc chunks = .ok out →
      NoChanBuf acc.1 → SplitAcct rl acc.1 → acc.1.buf = [] →
      SplitAcct rl out.1 ∧ NoChanBuf out.1 ∧ out.1.buf = [] := by
  intro chunks
  induction chunks with
  | nil =>
    intro acc out h hnc hs hbe
    injection h with h2
    rw [← h2]
    exact ⟨hs, hnc, hbe⟩
  | cons c t ih =>
    intro acc out h hnc hs hbe
    obtain ⟨st, rp, prog⟩ := acc
    simp only [runChunks] at h
    split at h
    · split at h
      · exact Except.noConfusion h
      · rename_i st1 heq
        obtain ⟨hs1, hnc1⟩ :=
          processRows_SplitAcct include_bits hdr rl hrl hh _ st st1 heq hnc hs
        have hfl := flush_split_totals_fallback st1 rl hnc1 hs1 hrl
        exact ih _ out h hfl.2.1 hfl.1 hfl.2.2
    · exact ih _ out h hnc hs hbe

theorem streamDecode_split_totals (input : CsvInput) (include_bits : Bool)
    (channel : Option String) (oc1 oc2 : Option (String × String)) (rl : Nat)
    (cb : Bool) (hrl : 1 ≤ rl) (hh : hasCol input.header "channel" = false)
    (res : RunResult)
    (h : streamDecode input include_bits channel true none oc1 oc2 rl cb = .ok res) :
    streamTotal res.wC0 + streamTotal res.wC1 = res.decoded := by
  cases cb <;> cases oc1 <;> cases oc2 <;>
    simp only [streamDecode, if_true, Bool.false_eq_true, if_false] at h <;>
    first
      | exact Except.noConfusion h
      | (split at h
         · exact Except.noConfusion h
         · rename_i st x prog heq
           injection h with h2
           rw [← h2]
           have hinit := runChunks_SplitAcct include_bits channel input.header _ _ rl
             hrl hh _ _ (st, x, prog) heq
             (by intro r hr; exact absurd hr (by simp))
             (by
               refine ⟨⟨_, rfl, rfl, WInv_initWriter _ _ _ _⟩,
                 ⟨_, rfl, rfl, WInv_initWriter _ _ _ _⟩, rfl⟩)
             rfl
           show streamTotal st.wC0 + streamTotal st.wC1 = st.decoded
           have := hinit.1.2.2
           rw [hinit.2.2] at this
           simpa using this)

/-- C1 (amended): in split mode, when the input has no `channel` column (fallback
routing by message-name membership), every decoded record lands in exactly one of
the two streams and the stream row counts sum to the decoded-record count.  When
buffered records do carry explicit channel tags, the flush partitions them by the
lowercased tag being `"can1"` resp. `"can0"` only: records whose tag is neither are
written to neither stream (dropped), so the two groups plus the dropped records
account for the batch. -/
theorem c1_split_routing :
    (∀ (input : CsvInput) (p1 p2 : String × String) (include_bits : Bool)
       (channel : Option String) (rl : Nat) (hasCb : Bool),
       1 ≤ rl → hasCol input.header "channel" = false →
       (decode_csv_split input p1 p2 include_bits channel rl hasCb).toOption.elim True
         (fun res => streamTotal res.wC0 + streamTotal res.wC1 = res.decoded)) ∧
    (∀ st : EngineSt, st.buf ≠ [] →
       st.buf.any (fun r => r.channel.isSome) = true →
       flush true st =
         { st with
             wC0 := st.wC0.map (fun w => write_df w
               (st.buf.filter (fun r => chanLower r == "can0"))),
             wC1 := st.wC1.map (fun w => write_df w
               (st.buf.filter (fun r => chanLower r == "can1"))),
             buf := [] } ∧
       (st.buf.filter (fun r => chanLower r == "can1")).length
         + (st.buf.filter (fun r => chanLower r == "can0")).length
         + (st.buf.filter (fun r =>
             !(chanLower r == "can1" || chanLower r == "can0"))).length
         = st.buf.length) := by
  constructor
  · intro input p1 p2 include_bits channel rl hasCb hrl hh
    cases hres : decode_csv_split input p1 p2 include_bits channel rl hasCb with
    | error e => simp [Except.toOption]
    | ok res =>
      simp only [Except.toOption, Option.elim]
      exact streamDecode_split_totals input include_bits channel (some p1) (some p2)
        rl hasCb hrl hh res hres
  · intro st hneb hch
    refine ⟨?_, ?_⟩
    · simp [flush, hneb, hch]
    · exact length_filter_three (fun r => chanLower r == "can1")
        (fun r => chanLower r == "can0")
        (fun r => !(chanLower r == "can1" || chanLower r == "can0")) st.buf
        (fun a hpa => by
          have hca : chanLower a = "can1" := by simpa using hpa
          simp [hca])
        (fun a => by simp [Bool.not_or])

/-- C1 counterexample: a split-mode row tagged with the explicit channel value
`"x"` decodes to one record but is written to neither stream, so the streams' total
row count (0) does not equal the decoded-record count (1): with arbitrary explicit
tags, records can be dropped from both outputs. -/
theorem c1_tag_counterexample :
    Except.map (fun res => (res.decoded, streamTotal res.wC0 + streamTotal res.wC1))
        (decode_csv_split c1TagInput ("vehicle", ".csv") ("battery", ".csv") false
          none EXCEL_XLSX_MAX_ROWS false)
      = .ok (1, 0) ∧ (1 : Nat) ≠ 0 := by
  constructor
  · rfl
  · decide

theorem c1_split_routing_witness :
    ((1 : Nat) ≤ 5 ∧ hasCol c10Input.header "channel" = false ∧
      (decode_csv_split c10Input ("v", ".csv") ("b", ".csv") false none 5
          false).toOption.elim True
        (fun res => streamTotal res.wC0 + streamTotal res.wC1 = res.decoded)) ∧
    ((⟨none, none, none, [{ simpleRec with channel := some "x" }], 0, 0⟩
        : EngineSt).buf ≠ [] ∧
      ((⟨none, none, none, [{ simpleRec with channel := some "x" }], 0, 0⟩
        : EngineSt).buf.any (fun r => r.channel.isSome) = true) ∧
      ((⟨none, none, none, [{ simpleRec with channel := some "x" }], 0, 0⟩
          : EngineSt).buf.filter (fun r => chanLower r == "can1")).length
        + ((⟨none, none, none, [{ simpleRec with channel := some "x" }], 0, 0⟩
          : EngineSt).buf.filter (fun r => chanLower r == "can0")).length
        + ((⟨none, none, none, [{ simpleRec with channel := some "x" }], 0, 0⟩
          : EngineSt).buf.filter (fun r =>
            !(chanLower r == "can1" || chanLower r == "can0"))).length
        = (⟨none, none, none, [{ simpleRec with channel := some "x" }], 0, 0⟩
          : EngineSt).buf.length) := by
  refine ⟨⟨by decide, by decide, ?_⟩, by decide, by decide, ?_⟩
  · exact c1_split_routing.1 c10Input ("v", ".csv") ("b", ".csv") false none 5 false
      (by decide) (by decide)
  · exact (c1_split_routing.2
      ⟨none, none, none, [{ simpleRec with channel := some "x" }], 0, 0⟩
      (by decide) (by decide)).2

theorem mem_of_mem_headq {α : Type} {l : List α} {x : α} (h : x ∈ l.head?) : x ∈ l := by
  rw [List.eq_cons_of_mem_head? h]
  exact List.mem_cons_self _ _

theorem mem_of_mem_getlastq {α : Type} {l : List α} {x : α} (h : x ∈ l.getLast?) :
    x ∈ l := by
  obtain ⟨hne, rfl⟩ := List.mem_getLast?_eq_getLast h
  exact List.getLast_mem hne

theorem progressEntry_bounds (rp tr : Nat) :
    0 ≤ (progressEntry rp tr).1 ∧ (progressEntry rp tr).1 ≤ 999 / 1000 := by
  unfold progressEntry
  split_ifs with ht
  · exact ⟨le_min (by positivity) (by norm_num), min_le_right _ _⟩
  · exact ⟨le_refl 0, by norm_num⟩

theorem progressEntry_mono (tr rp1 rp2 : Nat) (h : rp1 ≤ rp2) :
    (progressEntry rp1 tr).1 ≤ (progressEntry rp2 tr).1 := by
  unfold progressEntry
  split_ifs with ht
  · show min ((rp1 : ℚ) / (tr : ℚ)) (999 / 1000)
      ≤ min ((rp2 : ℚ) / (tr : ℚ)) (999 / 1000)
    refine min_le_min ?_ le_rfl
    have htr : (0 : ℚ) < (tr : ℚ) := by
      have h0 : 0 < tr := Nat.pos_of_ne_zero ht
      exact_mod_cast h0
    exact (div_le_div_iff_of_pos_right htr).mpr (by exact_mod_cast h)
  · exact le_rfl

theorem runChunks_progress (include_bits split : Bool) (channel : Option String)
    (hdr : List String) (tr : Nat) :
    ∀ (chunks : List (List (List String))) (st : EngineSt) (rp : Nat)
      (prog : List (ℚ × String)) (out : EngineSt × Nat × List (ℚ × String)),
      runChunks include_bits split channel hdr tr true (st, rp, prog) chunks
          = .ok out →
      rp ≤ out.2.1 ∧ ∃ ext : List (ℚ × String),
        out.2.2 = prog ++ ext ∧
        (∀ p ∈ ext, 0 ≤ p.1 ∧ p.1 ≤ 999 / 1000) ∧
        List.Chain' (· ≤ ·) (ext.map Prod.fst) ∧
        (∀ q ∈ (ext.map Prod.fst).head?, (progressEntry rp tr).1 ≤ q) := by
  intro chunks
  induction chunks with
  | nil =>
    intro st rp prog out h
    injection h with h2
    rw [← h2]
    exact ⟨le_rfl, [], by simp, by simp, by simp, by simp⟩
  | cons c t ih =>
    intro st rp prog out h
    simp only [runChunks, eq_self_iff_true, if_true] at h
    split at h
    · split at h
      · exact Except.noConfusion h
      · rename_i st1 heq
        obtain ⟨hrp, ext2, hpr2, hbnd2, hch2, hhd2⟩ :=
          ih _ (rp + (chunkFilter channel hdr c).length)
            (prog ++ [progressEntry (rp + (chunkFilter channel hdr c).length) tr])
            out h
        refine ⟨le_trans (Nat.le_add_right _ _) hrp,
          progressEntry (rp + (chunkFilter channel hdr c).length) tr :: ext2,
          ?_, ?_, ?_, ?_⟩
        · rw [hpr2, List.append_assoc]
          rfl
        · intro p hp
          rcases List.mem_cons.mp hp with rfl | hp2
          · exact progressEntry_bounds _ _
          · exact hbnd2 p hp2
        · rw [List.map_cons, List.chain'_cons']
          exact ⟨hhd2, hch2⟩
        · intro q hq
          rw [List.map_cons, List.head?_cons] at hq
          have hq2 : (progressEntry (rp + (chunkFilter channel hdr c).length) tr).1
              = q := by
            simpa using hq
          rw [← hq2]
          exact progressEntry_mono tr _ _ (Nat.le_add_right _ _)
    · obtain ⟨hrp, ext2, hpr2, hbnd2, hch2, hhd2⟩ :=
        ih _ (rp + (chunkFilter channel hdr c).length) prog out h
      refine ⟨le_trans (Nat.le_add_right _ _) hrp, ext2, hpr2, hbnd2, hch2, ?_⟩
      intro q hq
      exact le_trans (progressEntry_mono tr _ _ (Nat.le_add_right _ _)) (hhd2 q hq)

theorem streamDecode_ok_progress (input : CsvInput) (include_bits : Bool)
    (channel : Option String) (split : Bool) (o1 oc1 oc2 : Option (String × String))
    (rl : Nat) (res : RunResult)
    (h : streamDecode input include_bits channel split o1 oc1 oc2 rl true = .ok res) :
    ∃ mid : List (ℚ × String),
      res.progress
          = ((0 : ℚ), "Starting decode") :: (mid ++ [((1 : ℚ), "Decoding complete")]) ∧
      (∀ p ∈ mid, 0 ≤ p.1 ∧ p.1 < 1) ∧
      List.Chain' (· ≤ ·) (res.progress.map Prod.fst) := by
  cases split <;> cases o1 <;> cases oc1 <;> cases oc2 <;>
    simp only [streamDecode, if_true, eq_self_iff_true, Bool.false_eq_true, if_false]
      at h <;>
    first
      | exact Except.noConfusion h
      | (split at h
         · exact Except.noConfusion h
         · rename_i st x prog heq
           injection h with h2
           rw [← h2]
           obtain ⟨hrp, ext, hpr, hbnd, hch, hhd⟩ :=
             runChunks_progress _ _ _ _ _ _ _ _ _ _ heq
           have hpr2 : prog = ((0 : ℚ), "Starting decode") :: ext := by
             have h3 : prog = [((0 : ℚ), "Starting decode")] ++ ext := hpr
             simpa using h3
           refine ⟨ext, ?_, ?_, ?_⟩
           · show prog ++ [((1 : ℚ), "Decoding complete")] = _
             rw [hpr2]
             rfl
           · intro p hp
             exact ⟨(hbnd p hp).1, lt_of_le_of_lt (hbnd p hp).2 (by norm_num)⟩
           · show List.Chain' (· ≤ ·)
               ((prog ++ [((1 : ℚ), "Decoding complete")]).map Prod.fst)
             rw [hpr2, List.cons_append, List.map_cons, List.map_append]
             rw [List.chain'_cons']
             constructor
             · intro y hy
               cases ext with
               | nil =>
                 have h1y : (1 : ℚ) = y := by simpa using hy
                 rw [← h1y]
                 norm_num
               | cons e0 ext' =>
                 have hey : e0.1 = y := by simpa using hy
                 rw [← hey]
                 exact (hbnd e0 (List.mem_cons_self _ _)).1
             · rw [List.chain'_append]
               refine ⟨hch, List.chain'_singleton _, ?_⟩
               intro a ha b hb
               have hb2 : (1 : ℚ) = b := by simpa using hb
               obtain ⟨p, hp, rfl⟩ := List.mem_map.mp (mem_of_mem_getlastq ha)
               rw [← hb2]
               exact le_trans (hbnd p hp).2 (by norm_num))

/-- C8: every streaming run with a progress callback reports a trace that starts
with fraction 0.0 ("Starting decode"), ends with exactly 1.0 ("Decoding complete"),
keeps every intermediate fraction in [0, 1) (each is min(processed/total, 0.999), or
0 when no estimate exists), and is monotonically non-decreasing throughout. -/
theorem c8_progress_trace (input : CsvInput) (include_bits : Bool)
    (channel : Option String) (split : Bool) (o1 oc1 oc2 : Option (String × String))
    (rl : Nat) :
    (streamDecode input include_bits channel split o1 oc1 oc2 rl
        true).toOption.elim True
      (fun res => ∃ mid : List (ℚ × String),
        res.progress
            = ((0 : ℚ), "Starting decode")
              :: (mid ++ [((1 : ℚ), "Decoding complete")]) ∧
        (∀ p ∈ mid, 0 ≤ p.1 ∧ p.1 < 1) ∧
        List.Chain' (· ≤ ·) (res.progress.map Prod.fst)) := by
  cases hres : streamDecode input include_bits channel split o1 oc1 oc2 rl true with
  | error e => simp [Except.toOption]
  | ok res =>
    simp only [Except.toOption, Option.elim]
    exact streamDecode_ok_progress input include_bits channel split o1 oc1 oc2 rl
      res hres
